import Mathlib

/-!
Verification of the stg-live-messenger core against its specification.

The development shallowly embeds the Python sources:

* `src/steganography.py` — LSB image steganography codec
  (`validate_image_size`, `encode_hash_in_image`, `decode_hash_from_image`);
* `src/password.py` — password hashing / key derivation helpers and the
  DES-CBC envelope (`encrypt_des_cbc`, `decrypt_des_cbc`);
* `src/server.py` — the request router and the per-action handlers
  (`_handle_request`, `_handle_register`, `_handle_login`, `_handle_send`,
  `_handle_fetch`, `_handle_get_users`, `get_user_des_key`).

Modelling conventions:

* Bytes are `Nat`s (with explicit `< 256` bounds where the Python `bytes`
  type guarantees them); byte strings are `List Nat`.
* Python exceptions are modelled with `Except String`; the `try/except`
  blocks of the handlers become `match` expressions on those values,
  reproducing the source's per-level error messages.
* External library calls that are not part of this repository are modelled
  from the spec and marked `Modelled from the spec:` in their doc comments
  (the DES block primitive, CBC chaining and PKCS#7 padding of
  PyCryptodome, the PBKDF2 key derivation of hashlib, the base64 codec of
  the standard library, PIL's lossless PNG load/save, `get_random_bytes`
  and the wall clock, which become explicit parameters).
* Plaintext strings are represented by their UTF-8 byte sequences
  (`List Nat`); UTF-8 encoding is an injective external codec, so byte
  level round trips are exactly string level round trips.
-/

set_option maxRecDepth 100000

/-! ## Steganography codec (`src/steganography.py`) -/

/-- An RGB pixel: the values of the R, G and B channels. -/
abbrev Pixel := Nat × Nat × Nat

/-- Channel access `pixel[channel]` for `channel` in 0, 1, 2 (R, G, B). -/
def getChannel (p : Pixel) (c : Nat) : Nat :=
  match c with
  | 0 => p.1
  | 1 => p.2.1
  | _ => p.2.2

/-- Channel update `pixel[channel] = v` for `channel` in 0, 1, 2. -/
def setChannel (p : Pixel) (c : Nat) (v : Nat) : Pixel :=
  match c with
  | 0 => (v, p.2.1, p.2.2)
  | 1 => (p.1, v, p.2.2)
  | _ => (p.1, p.2.1, v)

/-- An RGB raster image: width, height and the pixels in raster order
(left to right, top to bottom), as loaded by `Image.open` + `load`. -/
structure Img where
  width : Nat
  height : Nat
  pixels : List Pixel

deriving DecidableEq, Repr

/-- `validate_image_size` of `steganography.py`: `width*height*3` available
bits must reach `required_bits`. -/
def validate_image_size (img : Img) (required_bits : Nat) : Bool :=
  decide (required_bits ≤ img.width * img.height * 3)

/-- The flat pixel index the source addresses for bit slot `i`: it computes
`x = (i//3) % width`, `y = (i//3) // width` and accesses `pixels[x, y]`,
which is raster position `y * width + x`. -/
def slotIndex (w i : Nat) : Nat :=
  ((i / 3) / w) * w + ((i / 3) % w)

/-- The bits of one byte, most significant first: Python
`format(byte, '08b')`, exact for `byte < 256`. -/
def byteBits (b : Nat) : List Nat :=
  (List.range 8).map (fun i => (b >>> (7 - i)) &&& 1)

/-- A 16-bit most-significant-first rendering of `n`: Python
`format(n, '016b')`, exact for `n < 65536` (the encoder writes exactly the
first 16 characters). -/
def natBits16 (n : Nat) : List Nat :=
  (List.range 16).map (fun i => (n >>> (15 - i)) &&& 1)

/-- Binary string to number, `int(bits, 2)`. -/
def bitsToNat (bits : List Nat) : Nat :=
  bits.foldl (fun acc b => acc * 2 + b) 0

/-- One write of the encoder loop body: read `pixels[x, y]`, clear the LSB
of channel `i % 3` and OR in `bit`.  A raster position outside the image
raises `IndexError` in Python. -/
def writeSlot (px : List Pixel) (w i bit : Nat) : Except String (List Pixel) :=
  match px[slotIndex w i]? with
  | none => .error "IndexError: image position out of range"
  | some p =>
      .ok (px.set (slotIndex w i)
        (setChannel p (i % 3) ((getChannel p (i % 3) &&& 0xFE) ||| bit)))

/-- The encoder loop: write the given bits into consecutive bit slots
starting at slot `start`. -/
def encodeBits (px : List Pixel) (w start : Nat) : List Nat → Except String (List Pixel)
  | [] => .ok px
  | bit :: rest =>
    match writeSlot px w start bit with
    | .error e => .error e
    | .ok px' => encodeBits px' w (start + 1) rest

/-- `encode_hash_in_image` of `steganography.py`: check capacity (272 bits),
write the 16 length bits at slots 0..15, then the payload bits at slots
16 onward.  The file-system round trip through `image_path`/`output_path`
is the identity on pixel data (lossless PNG). -/
def encode_hash_in_image (img : Img) (password_hash : List Nat) : Except String Img :=
  if validate_image_size img 272 = false then
    .error "Image too small. Need at least 90 pixels for encoding."
  else
    match encodeBits img.pixels img.width 0 (natBits16 (8 * password_hash.length)) with
    | .error e => .error e
    | .ok px1 =>
      match encodeBits px1 img.width 16 ((password_hash.map byteBits).flatten) with
      | .error e => .error e
      | .ok px2 => .ok { img with pixels := px2 }

/-- One read of the decoder loop body: the LSB of channel `i % 3` of
`pixels[x, y]`. -/
def readSlot (px : List Pixel) (w i : Nat) : Except String Nat :=
  match px[slotIndex w i]? with
  | none => .error "IndexError: image position out of range"
  | some p => .ok (getChannel p (i % 3) &&& 0x01)

/-- The decoder loop: read `n` consecutive bit slots starting at `start`. -/
def readBits (px : List Pixel) (w start : Nat) : Nat → Except String (List Nat)
  | 0 => .ok []
  | n + 1 =>
    match readSlot px w start with
    | .error e => .error e
    | .ok b =>
      match readBits px w (start + 1) n with
      | .error e => .error e
      | .ok rest => .ok (b :: rest)

/-- Regroup a bit string into bytes, 8 bits at a time, most significant
first: `bytes(int(hash_bits[i:i+8], 2) for i in range(0, len, 8))`.  The
last arm covers a trailing group of fewer than 8 bits. -/
def bytesFromBits : List Nat → List Nat
  | b1 :: b2 :: b3 :: b4 :: b5 :: b6 :: b7 :: b8 :: rest =>
    bitsToNat [b1, b2, b3, b4, b5, b6, b7, b8] :: bytesFromBits rest
  | [] => []
  | l => [bitsToNat l]

/-- `decode_hash_from_image` of `steganography.py`: read the 16 length
bits, demand the value 256, read the 256 payload bits, regroup into bytes
and demand 32 of them. -/
def decode_hash_from_image (img : Img) : Except String (List Nat) :=
  match readBits img.pixels img.width 0 16 with
  | .error e => .error e
  | .ok lengthBits =>
    if bitsToNat lengthBits ≠ 256 then
      .error ("Invalid hash length: " ++ toString (bitsToNat lengthBits) ++ ", expected 256")
    else
      match readBits img.pixels img.width 16 (bitsToNat lengthBits) with
      | .error e => .error e
      | .ok hashBits =>
        if (bytesFromBits hashBits).length ≠ 32 then
          .error ("Invalid hash size: " ++ toString (bytesFromBits hashBits).length
            ++ " bytes, expected 32")
        else
          .ok (bytesFromBits hashBits)

/-! ### Steganography lemmas -/

/-- All channel values of all pixels are genuine bytes. -/
def channelsBounded (px : List Pixel) : Prop :=
  ∀ p ∈ px, p.1 < 256 ∧ p.2.1 < 256 ∧ p.2.2 < 256

/-- Total channel accessor used to state image properties. -/
def chanAt (px : List Pixel) (n c : Nat) : Nat :=
  getChannel (px.getD n default) c

/-! ## CryptoEngine (`src/password.py`) -/

/-- Modelled from the spec: the external DES block primitive of
PyCryptodome (`Crypto.Cipher.DES`), abstracted as a pair of keyed maps on
8-byte blocks.  Results that need it assume `BlockCipher.Valid`, which
real DES satisfies. -/
structure BlockCipher where
  enc : List Nat → List Nat → List Nat
  dec : List Nat → List Nat → List Nat

/-- The properties of the external block primitive the proofs rely on:
8-byte blocks map to 8-byte blocks, decryption inverts encryption, and
byte-valued blocks map to byte-valued blocks. -/
def BlockCipher.Valid (bc : BlockCipher) : Prop :=
  (∀ k b, b.length = 8 → (bc.enc k b).length = 8) ∧
  (∀ k b, b.length = 8 → bc.dec k (bc.enc k b) = b) ∧
  (∀ k b, (∀ x ∈ b, x < 256) → ∀ x ∈ bc.enc k b, x < 256)

/-- Modelled from the spec: PKCS#7 padding (`Crypto.Util.Padding.pad`)
with block size 8 — append `8 - len % 8` copies of that value. -/
def pad8 (data : List Nat) : List Nat :=
  data ++ List.replicate (8 - data.length % 8) (8 - data.length % 8)

/-- Modelled from the spec: PKCS#7 unpadding (`Crypto.Util.Padding.unpad`)
with block size 8 — reject empty input, length not a multiple of 8, a pad
byte outside 1..8 or inconsistent padding bytes. -/
def unpad8 (data : List Nat) : Except String (List Nat) :=
  if data.length = 0 ∨ data.length % 8 ≠ 0 then .error "Padding is incorrect."
  else if data.getLast?.getD 0 < 1 ∨ 8 < data.getLast?.getD 0 then
    .error "Padding is incorrect."
  else if data.drop (data.length - data.getLast?.getD 0) ≠
      List.replicate (data.getLast?.getD 0) (data.getLast?.getD 0) then
    .error "PKCS#7 padding is incorrect."
  else
    .ok (data.take (data.length - data.getLast?.getD 0))

/-- Split a byte string into consecutive 8-byte blocks (a trailing short
group becomes a short final block). -/
def toBlocks : List Nat → List (List Nat)
  | b1 :: b2 :: b3 :: b4 :: b5 :: b6 :: b7 :: b8 :: rest =>
    [b1, b2, b3, b4, b5, b6, b7, b8] :: toBlocks rest
  | [] => []
  | l => [l]

/-- Modelled from the spec: CBC-mode encryption over the block primitive
(inside `cipher.encrypt` of PyCryptodome): each plaintext block is XORed
with the previous ciphertext block (initially the IV), then encrypted. -/
def cbcEnc (bc : BlockCipher) (key : List Nat) : List Nat → List (List Nat) → List (List Nat)
  | _, [] => []
  | prev, b :: rest =>
    let c := bc.enc key (List.zipWith Nat.xor b prev)
    c :: cbcEnc bc key c rest

/-- Modelled from the spec: CBC-mode decryption over the block primitive:
decrypt each block and XOR with the previous ciphertext block. -/
def cbcDec (bc : BlockCipher) (key : List Nat) : List Nat → List (List Nat) → List (List Nat)
  | _, [] => []
  | prev, c :: rest =>
    List.zipWith Nat.xor (bc.dec key c) prev :: cbcDec bc key c rest

/-- `encrypt_des_cbc` of `password.py`: check the key is 8 bytes, PKCS#7
pad the UTF-8 plaintext bytes, DES-CBC encrypt, return `iv || ct`.  The
fresh random IV from `get_random_bytes(8)` is the `iv` parameter. -/
def encrypt_des_cbc (bc : BlockCipher) (des_key iv plaintext : List Nat) :
    Except String (List Nat) :=
  if des_key.length ≠ 8 then .error "DES key must be 8 bytes"
  else .ok (iv ++ (cbcEnc bc des_key iv (toBlocks (pad8 plaintext))).flatten)

/-- `decrypt_des_cbc` of `password.py`: check the key is 8 bytes and the
input is at least 16 bytes, split off the IV, DES-CBC decrypt, remove the
PKCS#7 padding.  The result is the UTF-8 byte sequence of the Python
return string (the final `.decode('utf-8')` is the identity on this byte
representation). -/
def decrypt_des_cbc (bc : BlockCipher) (des_key iv_ciphertext : List Nat) :
    Except String (List Nat) :=
  if des_key.length ≠ 8 then .error "DES key must be 8 bytes"
  else if iv_ciphertext.length < 16 then .error "Invalid iv+ciphertext input"
  else
    unpad8 ((cbcDec bc des_key (iv_ciphertext.take 8)
      (toBlocks (iv_ciphertext.drop 8))).flatten)

/-- `get_password_hash_prefix` of `password.py` (renamed; the source
computes `password_hash[:8]`): first 8 bytes of the stored hash. -/
def get_password_hash_first8 (password_hash : List Nat) : List Nat :=
  password_hash.take 8

/-! ## Base64 codec -/

deriving instance DecidableEq for Except

/-- Modelled from the spec: the standard base64 alphabet used by the
`base64` module for the base64-encoded JSON string payloads. -/
def b64Alphabet : List Char :=
  "ABCDEFGHIJKLMNOPQRSTUVWXYZabcdefghijklmnopqrstuvwxyz0123456789+/".data

/-- Character for a 6-bit group. -/
def b64CharOf (i : Nat) : Char :=
  b64Alphabet.getD i '?'

/-- 6-bit group for a character; any character outside the alphabet is a
decoding error. -/
def b64Sextet (c : Char) : Except String Nat :=
  match List.findIdx? (fun x => x == c) b64Alphabet with
  | none => .error "Invalid base64-encoded string"
  | some i => .ok i

/-- Modelled from the spec: `base64.b64encode`, 3 bytes to 4 characters
with `=` padding. -/
def b64encodeChunks : List Nat → List Char
  | [] => []
  | [a] => [b64CharOf (a / 4), b64CharOf (a % 4 * 16), '=', '=']
  | [a, b] => [b64CharOf (a / 4), b64CharOf (a % 4 * 16 + b / 16), b64CharOf (b % 16 * 4), '=']
  | a :: b :: c :: rest =>
    b64CharOf (a / 4) :: b64CharOf (a % 4 * 16 + b / 16) ::
      b64CharOf (b % 16 * 4 + c / 64) :: b64CharOf (c % 64) :: b64encodeChunks rest

/-- Byte string to base64 string. -/
def b64encode (bs : List Nat) : String :=
  String.mk (b64encodeChunks bs)

/-- Modelled from the spec: `base64.b64decode` on canonical input, 4
characters to 3 bytes, `=` padding only at the end; anything else is a
`binascii.Error`. -/
def b64decodeChunks : List Char → Except String (List Nat)
  | [] => .ok []
  | c1 :: c2 :: c3 :: c4 :: rest =>
    if c3 = '=' ∧ c4 = '=' ∧ rest = [] then
      match b64Sextet c1, b64Sextet c2 with
      | .ok s1, .ok s2 => .ok [s1 * 4 + s2 / 16]
      | _, _ => .error "Invalid base64-encoded string"
    else if c4 = '=' ∧ rest = [] then
      match b64Sextet c1, b64Sextet c2, b64Sextet c3 with
      | .ok s1, .ok s2, .ok s3 => .ok [s1 * 4 + s2 / 16, s2 % 16 * 16 + s3 / 4]
      | _, _, _ => .error "Invalid base64-encoded string"
    else
      match b64Sextet c1, b64Sextet c2, b64Sextet c3, b64Sextet c4, b64decodeChunks rest with
      | .ok s1, .ok s2, .ok s3, .ok s4, .ok bs =>
        .ok ((s1 * 4 + s2 / 16) :: (s2 % 16 * 16 + s3 / 4) :: (s3 % 4 * 64 + s4) :: bs)
      | _, _, _, _, _ => .error "Invalid base64-encoded string"
  | _ => .error "Invalid base64-encoded string"

/-- Base64 string to byte string. -/
def b64decode (s : String) : Except String (List Nat) :=
  b64decodeChunks s.data

/-! ## Picture wire format -/

/-- Turn consecutive byte triples into pixels (a trailing short group is
padded with zeros). -/
def bytesToPixels : List Nat → List Pixel
  | [] => []
  | a :: b :: c :: rest => (a, b, c) :: bytesToPixels rest
  | l => [(l.getD 0 0, l.getD 1 0, l.getD 2 0)]

/-- Modelled from the spec: serialization of the lossless raster format
(PIL PNG): width and height as two little-endian bytes each, then the
R, G, B bytes of every pixel in raster order.  PIL's save/open round trip
is the identity on this representation. -/
def imgToBytes (img : Img) : List Nat :=
  [img.width % 256, img.width / 256, img.height % 256, img.height / 256] ++
    (img.pixels.map (fun p => [p.1, p.2.1, p.2.2])).flatten

/-- Modelled from the spec: `Image.open` on in-memory picture bytes; any
byte string that is not a well-formed picture raises. -/
def imgFromBytes (l : List Nat) : Except String Img :=
  match l with
  | w0 :: w1 :: h0 :: h1 :: rest =>
    if rest.length = 3 * ((w0 + 256 * w1) * (h0 + 256 * h1)) then
      .ok ⟨w0 + 256 * w1, h0 + 256 * h1, bytesToPixels rest⟩
    else .error "UnidentifiedImageError: cannot identify image file"
  | _ => .error "UnidentifiedImageError: cannot identify image file"

/-! ## Request router and handlers (`src/server.py`) -/

/-- A row of the `users` table (the `password_hash` column is TEXT and
holds the base64 string the handler received). -/
structure UserRow where
  username : String
  password_hash : String
  picture_path : String

deriving DecidableEq, Repr

/-- A row of the `mailbox` table. -/
structure MailRow where
  id : Nat
  to_username : String
  from_username : String
  body : List Nat
  created_at : String

deriving DecidableEq, Repr

/-- The persistent state, `users.db` plus `mailbox.db`; `next_id` models
the mailbox AUTOINCREMENT counter. -/
structure ServerState where
  users : List UserRow
  mailbox : List MailRow
  next_id : Nat

deriving DecidableEq, Repr

/-- An incoming JSON request; `request.get(key)` yields `none` for a
missing key.  Wire keys `password_hash_prefix`, `from` and `to` are the
fields `password_hash_first8`, `fromUser` and `toUser`. -/
structure Request where
  action : Option String := none
  username : Option String := none
  password_hash : Option String := none
  picture : Option String := none
  password_hash_first8 : Option String := none
  fromUser : Option String := none
  toUser : Option String := none
  body : Option String := none

deriving DecidableEq, Repr

/-- One message of a FETCH response (wire key `from` is `fromUser`). -/
structure MsgOut where
  fromUser : String
  body : String
  created_at : String

deriving DecidableEq, Repr

/-- An outgoing JSON response; `status` is always present. -/
structure Response where
  status : String
  message : Option String := none
  users : Option (List String) := none
  messages : Option (List MsgOut) := none

deriving DecidableEq, Repr

/-- Python string truthiness of an optional request field: `None` and the
empty string are falsy (`if not username: ...`). -/
def isBlank (o : Option String) : Bool :=
  o.getD "" == ""

/-- `SELECT ... FROM users WHERE username = ?` on the primary-keyed
users table. -/
def findUser (users : List UserRow) (u : String) : Option UserRow :=
  users.find? (fun r => r.username == u)

/-- UTF-8 bytes of the welcome text "Welcome to STG Live Messenger!". -/
def welcomeBytes : List Nat :=
  [87, 101, 108, 99, 111, 109, 101, 32, 116, 111, 32, 83, 84, 71, 32,
   76, 105, 118, 101, 32, 77, 101, 115, 115, 101, 110, 103, 101, 114, 33]

/-- `get_user_des_key` of `server.py`: look up the stored base64 hash,
decode it, derive the DES key; `None` on a missing user or any exception.
`derive_des_key` is the external PBKDF2-HMAC-SHA256 derivation that
`password.py` delegates to hashlib, passed as a parameter (a function, so
the spec's determinism is inherent). -/
def get_user_des_key (derive_des_key : String → List Nat → List Nat)
    (st : ServerState) (username : String) : Option (List Nat) :=
  match findUser st.users username with
  | none => none
  | some row =>
    match b64decode row.password_hash with
    | .error _ => none
    | .ok stored_hash => some (derive_des_key username stored_hash)

/-- The relative path where registration stores the picture
(`images/<username>.png` relative to the configuration directory). -/
def picturePathOf (username : String) : String :=
  "images/" ++ username ++ ".png"

/-- The part of `_handle_register` up to and including the user-row
insert (everything except the welcome-envelope block, which the source
wraps in its own try/except): field checks, duplicate check, picture
base64 decode, picture parse, steganography decode, decode of the
submitted hash field (the comparison against the image hash is disabled
in the source, but the decode itself can raise), then the INSERT, which
stores the submitted base64 `password_hash` string. -/
def _handle_register_core (st : ServerState) (req : Request) :
    Response × ServerState :=
  if isBlank req.username || isBlank req.picture then
    ({ status := "error", message := some "Missing required fields" }, st)
  else
    match findUser st.users (req.username.getD "") with
    | some _ => ({ status := "error", message := some "Username already exists" }, st)
    | none =>
      match b64decode (req.picture.getD "") with
      | .error e =>
        ({ status := "error", message := some ("Error processing picture: " ++ e) }, st)
      | .ok picture_data =>
        match imgFromBytes picture_data with
        | .error e =>
          ({ status := "error", message := some ("Error processing picture: " ++ e) }, st)
        | .ok picture_image =>
          match decode_hash_from_image picture_image with
          | .error e =>
            ({ status := "error",
               message := some ("Failed to decode hash from picture: " ++ e) }, st)
          | .ok _decoded_hash =>
            match req.password_hash with
            | none =>
              ({ status := "error",
                 message := some ("Error processing picture: TypeError: "
                   ++ "argument should be a bytes-like object or ASCII string") }, st)
            | some ph =>
              match b64decode ph with
              | .error e =>
                ({ status := "error",
                   message := some ("Error processing picture: " ++ e) }, st)
              | .ok _received_hash =>
                ({ status := "success", message := some "Registration successful" },
                 { st with users := st.users ++
                     [{ username := req.username.getD "", password_hash := ph,
                        picture_path := picturePathOf (req.username.getD "") }] })

/-- `_handle_register` of `server.py`: the core registration followed by
the best-effort welcome envelope (`try: ... except: log`), which runs
exactly when the insert was reached: derive the new user's key, skip
silently if it is unavailable or falsy, encrypt the welcome text
(failures swallowed) and append to the mailbox.  `welcome_iv` is the
fresh IV from `get_random_bytes(8)` and `now` the UTC timestamp, both
external inputs. -/
def _handle_register (bc : BlockCipher) (derive_des_key : String → List Nat → List Nat)
    (st : ServerState) (req : Request) (welcome_iv : List Nat) (now : String) :
    Response × ServerState :=
  let resp := (_handle_register_core st req).1
  let st1 := (_handle_register_core st req).2
  if resp.status = "success" then
    match get_user_des_key derive_des_key st1 (req.username.getD "") with
    | none => (resp, st1)
    | some des_key =>
      if des_key.isEmpty then (resp, st1)
      else
        match encrypt_des_cbc bc des_key welcome_iv welcomeBytes with
        | .error _ => (resp, st1)
        | .ok iv_ct =>
          let row : MailRow :=
            { id := st1.next_id, to_username := req.username.getD "",
              from_username := "server", body := iv_ct, created_at := now }
          let st2 : ServerState :=
            { st1 with mailbox := st1.mailbox ++ [row], next_id := st1.next_id + 1 }
          (resp, st2)
  else (resp, st1)

/-- `_handle_login` of `server.py`: field checks, user lookup, byte
comparison of the stored hash's first 8 bytes against the decoded
submitted value. -/
def _handle_login (st : ServerState) (req : Request) : Response :=
  if isBlank req.username || isBlank req.password_hash_first8 then
    { status := "error", message := some "Missing username or password hash prefix" }
  else
    match findUser st.users (req.username.getD "") with
    | none => { status := "error", message := some "Invalid username or password" }
    | some row =>
      match b64decode row.password_hash with
      | .error e => { status := "error", message := some e }
      | .ok stored_hash =>
        match b64decode (req.password_hash_first8.getD "") with
        | .error e => { status := "error", message := some e }
        | .ok received =>
          if get_password_hash_first8 stored_hash ≠ received then
            { status := "error", message := some "Invalid username or password" }
          else
            { status := "success", message := some "Login successful" }

/-- `_handle_send` of `server.py`: field checks (the body only against
`None`), derive sender's and recipient's keys (Python falsiness rejects
`None` and empty keys), base64-decode and decrypt the body under the
sender's key, re-encrypt under the recipient's key with a fresh IV, and
append the envelope with the current UTC timestamp. -/
def _handle_send (bc : BlockCipher) (derive_des_key : String → List Nat → List Nat)
    (st : ServerState) (req : Request) (fresh_iv : List Nat) (now : String) :
    Response × ServerState :=
  if isBlank req.fromUser || isBlank req.toUser || req.body = none then
    ({ status := "error", message := some "Missing fields" }, st)
  else
    match get_user_des_key derive_des_key st (req.fromUser.getD "") with
    | none => ({ status := "error", message := some "Sender not found or key unavailable" }, st)
    | some sender_key =>
      if sender_key.isEmpty then
        ({ status := "error", message := some "Sender not found or key unavailable" }, st)
      else
        match get_user_des_key derive_des_key st (req.toUser.getD "") with
        | none =>
          ({ status := "error", message := some "Recipient not found or key unavailable" }, st)
        | some recipient_key =>
          if recipient_key.isEmpty then
            ({ status := "error", message := some "Recipient not found or key unavailable" }, st)
          else
            match b64decode (req.body.getD "") with
            | .error _ =>
              ({ status := "error",
                 message := some "Server could not decrypt message with sender key" }, st)
            | .ok encrypted_body =>
              match decrypt_des_cbc bc sender_key encrypted_body with
              | .error _ =>
                ({ status := "error",
                   message := some "Server could not decrypt message with sender key" }, st)
              | .ok plaintext_body =>
                match encrypt_des_cbc bc recipient_key fresh_iv plaintext_body with
                | .error e => ({ status := "error", message := some e }, st)
                | .ok iv_ct =>
                  let row : MailRow :=
                    { id := st.next_id, to_username := req.toUser.getD "",
                      from_username := req.fromUser.getD "", body := iv_ct,
                      created_at := now }
                  let st2 : ServerState :=
                    { st with mailbox := st.mailbox ++ [row], next_id := st.next_id + 1 }
                  ({ status := "success", message := some "Message stored" }, st2)

/-- `_handle_get_users` of `server.py`: all usernames. -/
def _handle_get_users (st : ServerState) : Response :=
  { status := "success", users := some (st.users.map (fun r => r.username)) }

/-- Insertion into a list ordered by `id` ascending. -/
def insertById (r : MailRow) : List MailRow → List MailRow
  | [] => [r]
  | x :: xs => if r.id < x.id then r :: x :: xs else x :: insertById r xs

/-- The `ORDER BY id ASC` of the fetch query. -/
def sortById : List MailRow → List MailRow
  | [] => []
  | x :: xs => insertById x (sortById xs)

/-- `_handle_fetch` of `server.py`: field check, user check, then all
mailbox rows addressed to the user ordered by `id` ascending, each body
re-encoded to base64 and the ciphertext untouched. -/
def _handle_fetch (st : ServerState) (req : Request) : Response :=
  if isBlank req.username then
    { status := "error", message := some "Missing username" }
  else
    match findUser st.users (req.username.getD "") with
    | none => { status := "error", message := some "User not found" }
    | some _ =>
      { status := "success",
        messages := some ((sortById (st.mailbox.filter
            (fun r => r.to_username == req.username.getD ""))).map (fun r =>
          { fromUser := r.from_username, body := b64encode r.body,
            created_at := r.created_at })) }

/-- `_handle_request` of `server.py`: dispatch on the `action` field;
unknown actions produce the generic error. -/
def _handle_request (bc : BlockCipher) (derive_des_key : String → List Nat → List Nat)
    (st : ServerState) (req : Request) (iv : List Nat) (now : String) :
    Response × ServerState :=
  if req.action.getD "" = "REQ::REGISTER" then
    _handle_register bc derive_des_key st req iv now
  else if req.action.getD "" = "REQ::LOGIN" then
    (_handle_login st req, st)
  else if req.action.getD "" = "REQ::SEND" then
    _handle_send bc derive_des_key st req iv now
  else if req.action.getD "" = "REQ::FETCH" then
    (_handle_fetch st req, st)
  else if req.action.getD "" = "REQ::GET_USERS" then
    (_handle_get_users st, st)
  else
    ({ status := "error", message := some ("Unknown action: " ++ req.action.getD "") }, st)

/-! ## Concrete artifacts for witnesses and counterexamples -/

/-- The identity block cipher: a concrete valid instance of the abstract
DES block primitive. -/
def idBC : BlockCipher := ⟨fun _ b => b, fun _ b => b⟩

/-- A concrete stand-in for the external PBKDF2 derivation: the first 8
bytes of the hash padded with zeros (always 8 bytes long). -/
def dkPad (_u : String) (h : List Nat) : List Nat :=
  (h ++ List.replicate 8 0).take 8

/-- A concrete derivation that always fails Python's truthiness test,
exercising the silently-skipped welcome path. -/
def dkEmpty (_u : String) (_h : List Nat) : List Nat := []

/-- A 90-pixel image: capacity 270 bits, below the 272-bit requirement. -/
def img90 : Img := ⟨90, 1, List.replicate 90 ((0, 0, 0) : Pixel)⟩

/-- A 91-pixel image: capacity 273 bits, the smallest meeting the check. -/
def img91 : Img := ⟨91, 1, List.replicate 91 ((0, 0, 0) : Pixel)⟩

/-- A 91-pixel image with non-trivial channel bytes. -/
def img91g : Img := ⟨91, 1, List.replicate 91 ((10, 200, 7) : Pixel)⟩

/-- The all-zero 32-byte payload embedded in the counterexample image. -/
def hashA : List Nat := List.replicate 32 0

/-- A different 32-byte value submitted in the register request's
`password_hash` field. -/
def hashB : List Nat := List.replicate 32 255

/-- A 91-pixel black image with `hashA` embedded: the only set LSB is bit
7 of the 16-bit length prefix (the value 256), which lands on channel G of
pixel 2; all payload bits are 0. -/
def cexImg : Img := ⟨91, 1, (List.replicate 91 ((0, 0, 0) : Pixel)).set 2 (0, 1, 0)⟩

/-- The counterexample registration request: the picture embeds `hashA`,
the submitted hash field carries `hashB`. -/
def cexReq : Request :=
  { action := some "REQ::REGISTER", username := some "alice",
    password_hash := some (b64encode hashB),
    picture := some (b64encode (imgToBytes cexImg)) }

/-- The empty initial server state. -/
def st0 : ServerState := ⟨[], [], 1⟩

/-- A state with one registered user whose stored hash is 32 zero bytes,
so the two 8-byte windows of the hash coincide. -/
def stC5 : ServerState :=
  ⟨[{ username := "alice", password_hash := b64encode hashA,
      picture_path := "images/alice.png" }], [], 1⟩

/-- The login request submitting the second 8-byte window of the stored
zero hash as the prefix field. -/
def reqC5 : Request :=
  { action := some "REQ::LOGIN", username := some "alice",
    password_hash_first8 := some (b64encode (List.replicate 8 0)) }

/-- A state with a user whose stored hash has 32 distinct bytes. -/
def stC5W : ServerState :=
  ⟨[{ username := "carol", password_hash := b64encode (List.range 32),
      picture_path := "images/carol.png" }], [], 1⟩

/-- A two-user state for the relay witness. -/
def stC2W : ServerState :=
  ⟨[{ username := "alice", password_hash := b64encode (List.replicate 32 5),
      picture_path := "images/alice.png" },
    { username := "bob", password_hash := b64encode (List.replicate 32 9),
      picture_path := "images/bob.png" }], [], 1⟩

/-- The concrete ciphertext the relay witness submits: "hi" encrypted
under alice's derived key with a fixed IV. -/
def ctC2W : List Nat :=
  (encrypt_des_cbc idBC (dkPad "alice" (List.replicate 32 5))
    (List.replicate 8 3) [104, 105]).toOption.getD []

/-- A state for the fetch witness: one recipient with interleaved rows. -/
def stC8W : ServerState :=
  ⟨[{ username := "bob", password_hash := b64encode hashA,
      picture_path := "images/bob.png" }],
   [{ id := 1, to_username := "bob", from_username := "alice",
      body := [1, 2], created_at := "t1" },
    { id := 2, to_username := "carol", from_username := "alice",
      body := [3], created_at := "t2" },
    { id := 3, to_username := "bob", from_username := "server",
      body := [4, 5, 6], created_at := "t3" }], 4⟩

/-- The login request of the C5 witness: carol submits the first 8-byte
window of her stored hash. -/
def reqC5W : Request :=
  { username := some "carol",
    password_hash_first8 := some (b64encode ((List.range 32).take 8)) }

/-- The SEND request of the C2 witness. -/
def reqC2W : Request :=
  { fromUser := some "alice", toUser := some "bob",
    body := some (b64encode ctC2W) }

/-- A second REGISTER request naming the already-taken username but
carrying no picture. -/
def cexReq2 : Request := { action := some "REQ::REGISTER", username := some "alice" }

/-! ## Theorems -/

theorem slotIndex_eq (w i : Nat) : slotIndex w i = i / 3 := by
  unfold slotIndex
  rw [Nat.mul_comm]
  exact Nat.div_add_mod (i / 3) w

theorem getChannel_lt_of_bounded {p : Pixel} (h : p.1 < 256 ∧ p.2.1 < 256 ∧ p.2.2 < 256)
    (c : Nat) : getChannel p c < 256 := by
  unfold getChannel
  rcases c with _ | c
  · exact h.1
  · rcases c with _ | c
    · exact h.2.1
    · exact h.2.2

theorem getChannel_setChannel_eq (p : Pixel) (c v : Nat) (hc : c < 3) :
    getChannel (setChannel p c v) c = v := by
  interval_cases c <;> rfl

theorem getChannel_setChannel_ne (p : Pixel) (c c' v : Nat) (hc : c < 3) (hc' : c' < 3)
    (hne : c ≠ c') : getChannel (setChannel p c v) c' = getChannel p c' := by
  interval_cases c <;> interval_cases c' <;> first | rfl | exact absurd rfl hne

theorem lsb_write_read : ∀ v < 256, ∀ b < 2, ((v &&& 0xFE) ||| b) &&& 1 = b := by decide

theorem lsb_write_hi : ∀ v < 256, ∀ b < 2, ((v &&& 0xFE) ||| b) / 2 = v / 2 := by decide

theorem lsb_write_lt : ∀ v < 256, ∀ b < 2, ((v &&& 0xFE) ||| b) < 256 := by decide

theorem setChannel_bounded {p : Pixel} (h : p.1 < 256 ∧ p.2.1 < 256 ∧ p.2.2 < 256)
    {v : Nat} (hv : v < 256) (c : Nat) :
    (setChannel p c v).1 < 256 ∧ (setChannel p c v).2.1 < 256 ∧ (setChannel p c v).2.2 < 256 := by
  unfold setChannel
  rcases c with _ | c
  · exact ⟨hv, h.2.1, h.2.2⟩
  · rcases c with _ | c
    · exact ⟨h.1, hv, h.2.2⟩
    · exact ⟨h.1, h.2.1, hv⟩

/-- Full specification of the encoder loop: it succeeds when all written
slots are in range, each written slot's LSB then holds its bit, every
other slot's LSB is untouched, and the upper seven bits of every channel
of every pixel are preserved. -/
theorem encodeBits_spec :
    ∀ (bits : List Nat) (px : List Pixel) (w s : Nat),
      s + bits.length ≤ 3 * px.length →
      (∀ b ∈ bits, b < 2) →
      channelsBounded px →
      ∃ px', encodeBits px w s bits = .ok px' ∧
        px'.length = px.length ∧
        channelsBounded px' ∧
        (∀ k, k < bits.length → readSlot px' w (s + k) = .ok (bits.getD k 0)) ∧
        (∀ j, j < s ∨ s + bits.length ≤ j → readSlot px' w j = readSlot px w j) ∧
        (∀ n c, n < px.length → c < 3 → chanAt px' n c / 2 = chanAt px n c / 2) := by
  intro bits
  induction bits with
  | nil =>
    intro px w s _ _ hch
    refine ⟨px, rfl, rfl, hch, ?_, ?_, ?_⟩
    · intro k hk; simp at hk
    · intro j _; rfl
    · intro n c _ _; rfl
  | cons bit rest ih =>
    intro px w s hrange hbits hch
    have hbit : bit < 2 := hbits bit (by simp)
    have hidx : s / 3 < px.length := by
      have : s < 3 * px.length := by simp at hrange; omega
      omega
    have hget : px[s / 3]? = some (px.get ⟨s / 3, hidx⟩) := by
      rw [List.getElem?_eq_getElem hidx]; rfl
    set p := px.get ⟨s / 3, hidx⟩ with hp
    have hpmem : p ∈ px := px.get_mem _ hidx
    have hpb := hch p hpmem
    have hvlt : getChannel p (s % 3) < 256 := getChannel_lt_of_bounded hpb _
    set v : Nat := (getChannel p (s % 3) &&& 0xFE) ||| bit with hv
    have hvlt' : v < 256 := lsb_write_lt _ hvlt _ hbit
    set p' := setChannel p (s % 3) v with hp'
    set px1 := px.set (s / 3) p' with hpx1
    have hws : writeSlot px w s bit = .ok px1 := by
      unfold writeSlot
      rw [slotIndex_eq, hget]
    have hlen1 : px1.length = px.length := by simp [hpx1]
    have hch1 : channelsBounded px1 := by
      intro q hq
      rcases List.mem_or_eq_of_mem_set hq with hq' | hq'
      · exact hch q hq'
      · subst hq'
        exact setChannel_bounded hpb hvlt' _
    -- LSB of slot s after the single write
    have hread1 : readSlot px1 w s = .ok bit := by
      unfold readSlot
      rw [slotIndex_eq]
      have hsome : px1[s / 3]? = some p' := by
        rw [hpx1]; exact List.getElem?_set_eq_of_lt _ hidx
      rw [hsome]
      have hc3 : s % 3 < 3 := Nat.mod_lt _ (by omega)
      show Except.ok (getChannel p' (s % 3) &&& 1) = Except.ok bit
      rw [hp', getChannel_setChannel_eq p _ _ hc3, hv]
      rw [lsb_write_read _ hvlt _ hbit]
    -- other slots untouched by the single write
    have hother1 : ∀ j, j ≠ s → readSlot px1 w j = readSlot px w j := by
      intro j hj
      unfold readSlot
      simp only [slotIndex_eq]
      by_cases hjp : j / 3 = s / 3
      · have hjc : j % 3 ≠ s % 3 := by omega
        have hsome : px1[j / 3]? = some p' := by
          rw [hpx1, hjp]; exact List.getElem?_set_eq_of_lt _ hidx
        rw [hsome, hjp, hget]
        have hc3 : s % 3 < 3 := Nat.mod_lt _ (by omega)
        have hc3' : j % 3 < 3 := Nat.mod_lt _ (by omega)
        show Except.ok (getChannel p' (j % 3) &&& 1) = Except.ok (getChannel p (j % 3) &&& 1)
        rw [hp', getChannel_setChannel_ne p _ _ _ hc3 hc3' (fun h => hjc h.symm)]
      · have hsome : px1[j / 3]? = px[j / 3]? := by
          rw [hpx1]; exact List.getElem?_set_ne (fun h => hjp h.symm)
        rw [hsome]
    -- upper bits preserved by the single write
    have hhi1 : ∀ n c, n < px.length → c < 3 → chanAt px1 n c / 2 = chanAt px n c / 2 := by
      intro n c hn hc
      unfold chanAt
      by_cases hnp : n = s / 3
      · subst hnp
        have h1 : px1.getD (s / 3) default = p' := by
          rw [hpx1]
          rw [List.getD_eq_getElem?_getD, List.getElem?_set_eq_of_lt _ hidx]
          rfl
        have h2 : px.getD (s / 3) default = p := by
          rw [List.getD_eq_getElem?_getD, hget]
          rfl
        rw [h1, h2]
        by_cases hcc : c = s % 3
        · subst hcc
          rw [hp', getChannel_setChannel_eq p _ _ hc, hv]
          exact lsb_write_hi _ hvlt _ hbit
        · have hc3 : s % 3 < 3 := Nat.mod_lt _ (by omega)
          rw [hp', getChannel_setChannel_ne p _ _ _ hc3 hc (fun h => hcc h.symm)]
      · have : px1.getD n default = px.getD n default := by
          rw [hpx1, List.getD_eq_getElem?_getD, List.getD_eq_getElem?_getD,
            List.getElem?_set_ne (fun h => hnp h.symm)]
        rw [this]
    -- apply the induction hypothesis to the tail
    obtain ⟨px', hok, hlen, hchF, hkF, hoF, hhF⟩ :=
      ih px1 w (s + 1)
        (by rw [hlen1]; simp only [List.length_cons] at hrange; omega)
        (fun b hb => hbits b (by simp [hb]))
        hch1
    refine ⟨px', ?_, by rw [hlen, hlen1], hchF, ?_, ?_, ?_⟩
    · show encodeBits px w s (bit :: rest) = .ok px'
      unfold encodeBits
      rw [hws]
      exact hok
    · intro k hk
      rcases k with _ | k
      · have : readSlot px' w s = readSlot px1 w s := hoF s (Or.inl (by omega))
        rw [Nat.add_zero, this, hread1]
        rfl
      · have := hkF k (by simp only [List.length_cons] at hk; omega)
        have harith : s + (k + 1) = s + 1 + k := by omega
        rw [harith, this]
        rfl
    · intro j hj
      have h1 : readSlot px' w j = readSlot px1 w j := by
        apply hoF
        rcases hj with hj | hj
        · exact Or.inl (by omega)
        · refine Or.inr ?_
          simp only [List.length_cons] at hj
          omega
      have h2 : readSlot px1 w j = readSlot px w j := by
        apply hother1
        rcases hj with hj | hj
        · omega
        · simp only [List.length_cons] at hj
          omega
      rw [h1, h2]
    · intro n c hn hc
      have h1 := hhF n c (by rw [hlen1]; exact hn) hc
      have h2 := hhi1 n c hn hc
      rw [h1, h2]

theorem byteBits_length (b : Nat) : (byteBits b).length = 8 := by
  simp [byteBits]

theorem natBits16_length (n : Nat) : (natBits16 n).length = 16 := by
  simp [natBits16]

theorem byteBits_lt_two {b x : Nat} (hx : x ∈ byteBits b) : x < 2 := by
  simp only [byteBits, List.mem_map] at hx
  obtain ⟨i, _, rfl⟩ := hx
  have := Nat.and_one_is_mod (b >>> (7 - i))
  omega

theorem natBits16_lt_two {n x : Nat} (hx : x ∈ natBits16 n) : x < 2 := by
  simp only [natBits16, List.mem_map] at hx
  obtain ⟨i, _, rfl⟩ := hx
  have := Nat.and_one_is_mod (n >>> (15 - i))
  omega

theorem bitsToNat_byteBits {b : Nat} (hb : b < 256) : bitsToNat (byteBits b) = b := by
  simp [byteBits, bitsToNat, List.range_succ, Nat.shiftRight_eq_div_pow, Nat.and_one_is_mod]
  omega

theorem hashBinary_length (h : List Nat) :
    ((h.map byteBits).flatten).length = 8 * h.length := by
  induction h with
  | nil => simp
  | cons b t ih =>
    simp only [List.map_cons, List.flatten_cons, List.length_append, byteBits_length, ih,
      List.length_cons]
    ring

theorem bytesFromBits_append8 (c : List Nat) (hc : c.length = 8) (rest : List Nat) :
    bytesFromBits (c ++ rest) = bitsToNat c :: bytesFromBits rest := by
  rcases c with _ | ⟨x1, c⟩; · simp at hc
  rcases c with _ | ⟨x2, c⟩; · simp at hc
  rcases c with _ | ⟨x3, c⟩; · simp at hc
  rcases c with _ | ⟨x4, c⟩; · simp at hc
  rcases c with _ | ⟨x5, c⟩; · simp at hc
  rcases c with _ | ⟨x6, c⟩; · simp at hc
  rcases c with _ | ⟨x7, c⟩; · simp at hc
  rcases c with _ | ⟨x8, c⟩; · simp at hc
  rcases c with _ | ⟨x9, c⟩
  · rfl
  · simp only [List.length_cons] at hc; omega

theorem bytesFromBits_flatten (h : List Nat) (hb : ∀ b ∈ h, b < 256) :
    bytesFromBits ((h.map byteBits).flatten) = h := by
  induction h with
  | nil => rfl
  | cons b t ih =>
    rw [List.map_cons, List.flatten_cons, bytesFromBits_append8 _ (byteBits_length b),
      bitsToNat_byteBits (hb b (by simp)), ih (fun x hx => hb x (by simp [hx]))]

theorem getD_range_map (l : List Nat) :
    (List.range l.length).map (fun k => l.getD k 0) = l := by
  induction l with
  | nil => rfl
  | cons x xs ih =>
    rw [List.length_cons, List.range_succ_eq_map, List.map_cons, List.map_map]
    have : ((fun k => (x :: xs).getD k 0) ∘ Nat.succ) = fun k => xs.getD k 0 := by
      funext k; rfl
    rw [this, ih]
    rfl

theorem readBits_of_readSlot (n : Nat) :
    ∀ (px : List Pixel) (w s : Nat) (f : Nat → Nat),
      (∀ k, k < n → readSlot px w (s + k) = .ok (f k)) →
      readBits px w s n = .ok ((List.range n).map f) := by
  induction n with
  | zero => intro px w s f _; rfl
  | succ n ih =>
    intro px w s f hf
    have h0 : readSlot px w s = .ok (f 0) := by
      have := hf 0 (by omega)
      rwa [Nat.add_zero] at this
    have htail : readBits px w (s + 1) n = .ok ((List.range n).map (fun k => f (k + 1))) := by
      apply ih
      intro k hk
      have := hf (k + 1) (by omega)
      rwa [show s + (k + 1) = s + 1 + k by omega] at this
    show readBits px w s (n + 1) = _
    unfold readBits
    rw [h0, htail]
    rw [List.range_succ_eq_map, List.map_cons, List.map_map]
    rfl

/-- Round trip with full layout: encoding 32 payload bytes into a
sufficiently large byte-valued image succeeds, the result decodes back to
the payload, the first 272 bit slots hold the 16 length bits followed by
the 256 payload bits, and the upper seven bits of every channel are
untouched. -/
theorem steg_roundtrip (img : Img) (h : List Nat)
    (hpx : img.pixels.length = img.width * img.height)
    (hcap : 91 ≤ img.width * img.height)
    (hch : channelsBounded img.pixels)
    (hlen : h.length = 32)
    (hb : ∀ b ∈ h, b < 256) :
    ∃ img', encode_hash_in_image img h = .ok img' ∧
      decode_hash_from_image img' = .ok h ∧
      img'.width = img.width ∧ img'.height = img.height ∧
      img'.pixels.length = img.pixels.length ∧
      (∀ i, i < 272 → readSlot img'.pixels img'.width i =
        .ok ((natBits16 256 ++ (h.map byteBits).flatten).getD i 0)) ∧
      (∀ n c, n < img.pixels.length → c < 3 →
        chanAt img'.pixels n c / 2 = chanAt img.pixels n c / 2) := by
  have hval : validate_image_size img 272 = true := by
    simp only [validate_image_size, decide_eq_true_eq]
    omega
  have hlb : natBits16 (8 * h.length) = natBits16 256 := by rw [hlen]
  have hhb : ((h.map byteBits).flatten).length = 256 := by
    rw [hashBinary_length, hlen]
  obtain ⟨px1, hok1, hlen1, hch1, hk1, ho1, hh1⟩ :=
    encodeBits_spec (natBits16 (8 * h.length)) img.pixels img.width 0
      (by rw [natBits16_length]; omega)
      (fun b hbmem => natBits16_lt_two hbmem)
      hch
  obtain ⟨px2, hok2, hlen2, hch2, hk2, ho2, hh2⟩ :=
    encodeBits_spec ((h.map byteBits).flatten) px1 img.width 16
      (by rw [hhb, hlen1]; omega)
      (fun b hbmem => by
        obtain ⟨l, hl, hbl⟩ := List.mem_flatten.mp hbmem
        obtain ⟨x, _, rfl⟩ := List.mem_map.mp hl
        exact byteBits_lt_two hbl)
      hch1
  have henc : encode_hash_in_image img h = .ok ⟨img.width, img.height, px2⟩ := by
    unfold encode_hash_in_image
    simp only [hval, Bool.true_eq_false, if_false, hok1, hok2]
  -- the 16 length slots survive the payload write
  have hread16 : ∀ k, k < 16 → readSlot px2 img.width k =
      .ok ((natBits16 256).getD k 0) := by
    intro k hk
    have hs : readSlot px2 img.width k = readSlot px1 img.width k :=
      ho2 k (Or.inl (by omega))
    have hv := hk1 k (by rw [natBits16_length]; omega)
    rw [Nat.zero_add] at hv
    rw [hs, hv, hlb]
  have hreadPayload : ∀ k, k < 256 → readSlot px2 img.width (16 + k) =
      .ok (((h.map byteBits).flatten).getD k 0) := by
    intro k hk
    exact hk2 k (by rw [hhb]; omega)
  have hr16 : readBits px2 img.width 0 16 = .ok (natBits16 256) := by
    have := readBits_of_readSlot 16 px2 img.width 0
      (fun k => (natBits16 256).getD k 0)
      (fun k hk => by rw [Nat.zero_add]; exact hread16 k hk)
    rw [this]
    have h16 : (16 : Nat) = (natBits16 256).length := (natBits16_length 256).symm
    rw [h16, getD_range_map]
  have hr256 : readBits px2 img.width 16 256 = .ok ((h.map byteBits).flatten) := by
    have := readBits_of_readSlot 256 px2 img.width 16
      (fun k => ((h.map byteBits).flatten).getD k 0)
      hreadPayload
    rw [this]
    have h256 : (256 : Nat) = ((h.map byteBits).flatten).length := hhb.symm
    rw [h256, getD_range_map]
  have hlenval : bitsToNat (natBits16 256) = 256 := by decide
  have hbytes : bytesFromBits ((h.map byteBits).flatten) = h := bytesFromBits_flatten h hb
  have hdec : decode_hash_from_image ⟨img.width, img.height, px2⟩ = .ok h := by
    unfold decode_hash_from_image
    simp only [hr16, hlenval, hr256, hbytes, hlen]
    norm_num
  refine ⟨⟨img.width, img.height, px2⟩, henc, hdec, rfl, rfl, by simp [hlen2, hlen1], ?_, ?_⟩
  · intro i hi
    by_cases h16 : i < 16
    · rw [List.getD_append _ _ _ _ (by rw [natBits16_length]; omega)]
      exact hread16 i h16
    · rw [List.getD_append_right _ _ _ _ (by rw [natBits16_length]; omega)]
      rw [natBits16_length]
      have := hreadPayload (i - 16) (by omega)
      rwa [show 16 + (i - 16) = i by omega] at this
  · intro n c hn hc
    have h1 := hh1 n c hn hc
    have h2 := hh2 n c (by rw [hlen1]; exact hn) hc
    show chanAt px2 n c / 2 = chanAt img.pixels n c / 2
    rw [h2, h1]

/-! ### Crypto lemmas -/

theorem pad8_ne_nil (l : List Nat) : pad8 l ≠ [] := by
  unfold pad8
  intro hcontra
  have := congrArg List.length hcontra
  simp only [List.length_append, List.length_replicate, List.length_nil] at this
  omega

theorem pad8_length (l : List Nat) : (pad8 l).length = l.length + (8 - l.length % 8) := by
  simp [pad8]

theorem pad8_length_mod (l : List Nat) : (pad8 l).length % 8 = 0 := by
  rw [pad8_length]
  omega

theorem unpad8_pad8 (l : List Nat) : unpad8 (pad8 l) = .ok l := by
  have hm : 1 ≤ 8 - l.length % 8 ∧ 8 - l.length % 8 ≤ 8 := by omega
  have hlast : (pad8 l).getLast?.getD 0 = 8 - l.length % 8 := by
    unfold pad8
    rw [List.getLast?_append_of_ne_nil]
    · rw [List.getLast?_replicate]
      simp only [Option.getD]
      have : 8 - l.length % 8 ≠ 0 := by omega
      simp [this]
    · intro hcontra
      have := congrArg List.length hcontra
      simp only [List.length_replicate, List.length_nil] at this
      omega
  unfold unpad8
  rw [hlast, pad8_length]
  have hsub : l.length + (8 - l.length % 8) - (8 - l.length % 8) = l.length := by omega
  rw [hsub]
  have hdrop : (pad8 l).drop l.length =
      List.replicate (8 - l.length % 8) (8 - l.length % 8) :=
    List.drop_left' rfl
  have htake : (pad8 l).take l.length = l := List.take_left' rfl
  rw [hdrop, htake]
  have hc1 : ¬(l.length + (8 - l.length % 8) = 0 ∨ (l.length + (8 - l.length % 8)) % 8 ≠ 0) := by
    omega
  rw [if_neg hc1]
  have hc2 : ¬(8 - l.length % 8 < 1 ∨ 8 < 8 - l.length % 8) := by omega
  rw [if_neg hc2]
  simp

theorem toBlocks_append8 (c : List Nat) (hc : c.length = 8) (rest : List Nat) :
    toBlocks (c ++ rest) = c :: toBlocks rest := by
  rcases c with _ | ⟨x1, c⟩; · simp at hc
  rcases c with _ | ⟨x2, c⟩; · simp at hc
  rcases c with _ | ⟨x3, c⟩; · simp at hc
  rcases c with _ | ⟨x4, c⟩; · simp at hc
  rcases c with _ | ⟨x5, c⟩; · simp at hc
  rcases c with _ | ⟨x6, c⟩; · simp at hc
  rcases c with _ | ⟨x7, c⟩; · simp at hc
  rcases c with _ | ⟨x8, c⟩; · simp at hc
  rcases c with _ | ⟨x9, c⟩
  · rfl
  · simp only [List.length_cons] at hc; omega

theorem flatten_toBlocks (l : List Nat) (hmod : l.length % 8 = 0) :
    (toBlocks l).flatten = l := by
  have H : ∀ (n : Nat) (l : List Nat), l.length ≤ n → l.length % 8 = 0 →
      (toBlocks l).flatten = l := by
    intro n
    induction n with
    | zero =>
      intro l hl _
      have : l = [] := List.eq_nil_of_length_eq_zero (by omega)
      rw [this]
      rfl
    | succ n ih =>
      intro l hl hm
      by_cases hnil : l = []
      · rw [hnil]; rfl
      · have hln : l.length ≠ 0 := fun hz => hnil (List.eq_nil_of_length_eq_zero hz)
        have h8 : (l.take 8).length = 8 := by rw [List.length_take]; omega
        rw [(List.take_append_drop 8 l).symm, toBlocks_append8 _ h8, List.flatten_cons,
          ih (l.drop 8) (by rw [List.length_drop]; omega)
            (by rw [List.length_drop]; omega)]
  exact H l.length l le_rfl hmod

theorem toBlocks_length8 (l : List Nat) (hmod : l.length % 8 = 0) :
    ∀ b ∈ toBlocks l, b.length = 8 := by
  have H : ∀ (n : Nat) (l : List Nat), l.length ≤ n → l.length % 8 = 0 →
      ∀ b ∈ toBlocks l, b.length = 8 := by
    intro n
    induction n with
    | zero =>
      intro l hl _ b hb
      have : l = [] := List.eq_nil_of_length_eq_zero (by omega)
      rw [this] at hb
      simp [toBlocks] at hb
    | succ n ih =>
      intro l hl hm b hb
      by_cases hnil : l = []
      · rw [hnil] at hb; simp [toBlocks] at hb
      · have hln : l.length ≠ 0 := fun hz => hnil (List.eq_nil_of_length_eq_zero hz)
        have h8 : (l.take 8).length = 8 := by rw [List.length_take]; omega
        rw [(List.take_append_drop 8 l).symm, toBlocks_append8 _ h8] at hb
        rcases List.mem_cons.mp hb with hb | hb
        · rw [hb]; exact h8
        · exact ih (l.drop 8) (by rw [List.length_drop]; omega)
            (by rw [List.length_drop]; omega) b hb
  exact H l.length l le_rfl hmod

theorem toBlocks_flatten (bl : List (List Nat)) (h8 : ∀ b ∈ bl, b.length = 8) :
    toBlocks bl.flatten = bl := by
  induction bl with
  | nil => rfl
  | cons b rest ih =>
    rw [List.flatten_cons, toBlocks_append8 b (h8 b (by simp)),
      ih (fun x hx => h8 x (by simp [hx]))]

theorem zipWith_xor_cancel (a b : List Nat) (hab : a.length = b.length) :
    List.zipWith Nat.xor (List.zipWith Nat.xor a b) b = a := by
  induction a generalizing b with
  | nil => simp
  | cons x xs ih =>
    cases b with
    | nil => simp at hab
    | cons y ys =>
      simp only [List.zipWith_cons_cons, List.cons.injEq]
      exact ⟨Nat.xor_cancel_right y x, ih ys (by simpa using hab)⟩

theorem cbcEnc_length8 (bc : BlockCipher) (henc : ∀ k b, b.length = 8 → (bc.enc k b).length = 8)
    (key : List Nat) :
    ∀ (blocks : List (List Nat)) (prev : List Nat), prev.length = 8 →
      (∀ b ∈ blocks, b.length = 8) →
      ∀ c ∈ cbcEnc bc key prev blocks, c.length = 8 := by
  intro blocks
  induction blocks with
  | nil => intro prev _ _ c hc; simp [cbcEnc] at hc
  | cons b rest ih =>
    intro prev hprev h8 c hc
    have hb8 : b.length = 8 := h8 b (by simp)
    have hxor : (List.zipWith Nat.xor b prev).length = 8 := by
      rw [List.length_zipWith]; omega
    have hc8 : (bc.enc key (List.zipWith Nat.xor b prev)).length = 8 := henc _ _ hxor
    simp only [cbcEnc, List.mem_cons] at hc
    rcases hc with hc | hc
    · rw [hc]; exact hc8
    · exact ih _ hc8 (fun x hx => h8 x (by simp [hx])) c hc

theorem cbcDec_cbcEnc (bc : BlockCipher)
    (henc : ∀ k b, b.length = 8 → (bc.enc k b).length = 8)
    (hdec : ∀ k b, b.length = 8 → bc.dec k (bc.enc k b) = b)
    (key : List Nat) :
    ∀ (blocks : List (List Nat)) (prev : List Nat), prev.length = 8 →
      (∀ b ∈ blocks, b.length = 8) →
      cbcDec bc key prev (cbcEnc bc key prev blocks) = blocks := by
  intro blocks
  induction blocks with
  | nil => intro prev _ _; rfl
  | cons b rest ih =>
    intro prev hprev h8
    have hb8 : b.length = 8 := h8 b (by simp)
    have hxor : (List.zipWith Nat.xor b prev).length = 8 := by
      rw [List.length_zipWith]; omega
    simp only [cbcEnc, cbcDec]
    rw [hdec _ _ hxor]
    rw [zipWith_xor_cancel b prev (by omega)]
    rw [ih (bc.enc key (List.zipWith Nat.xor b prev)) (henc _ _ hxor)
      (fun x hx => h8 x (by simp [hx]))]

/-- The DES-CBC envelope round trip: for a valid block primitive, an
8-byte key and an 8-byte IV, decryption inverts encryption on every
plaintext byte sequence. -/
theorem des_cbc_roundtrip (bc : BlockCipher) (hv : bc.Valid)
    (key iv pt : List Nat) (hk : key.length = 8) (hiv : iv.length = 8) :
    ∃ ct, encrypt_des_cbc bc key iv pt = .ok ct ∧
      decrypt_des_cbc bc key ct = .ok pt := by
  obtain ⟨henc, hdec, _⟩ := hv
  set blocks := toBlocks (pad8 pt) with hblocks
  have h8 : ∀ b ∈ blocks, b.length = 8 := toBlocks_length8 _ (pad8_length_mod pt)
  set cts := cbcEnc bc key iv blocks with hcts
  have hct8 : ∀ c ∈ cts, c.length = 8 := cbcEnc_length8 bc henc key blocks iv hiv h8
  have hctlen : cts.flatten.length = 8 * cts.length := by
    rw [List.length_flatten]
    have : ∀ ls : List (List Nat), (∀ c ∈ ls, c.length = 8) →
        (List.map List.length ls).sum = 8 * ls.length := by
      intro ls
      induction ls with
      | nil => intro _; simp
      | cons c rest ih =>
        intro hc
        simp only [List.map_cons, List.sum_cons, hc c (by simp), List.length_cons,
          ih (fun x hx => hc x (by simp [hx]))]
        ring
    exact this cts hct8
  have hcts_ne : cts ≠ [] := by
    intro hcontra
    have hbne : blocks ≠ [] := by
      intro hbc
      have hfl := flatten_toBlocks (pad8 pt) (pad8_length_mod pt)
      rw [hblocks] at hbc
      rw [hbc] at hfl
      exact pad8_ne_nil pt (by simpa using hfl.symm)
    rcases blocks with _ | ⟨b, rest⟩
    · exact hbne rfl
    · simp [cbcEnc, hcts] at hcontra
  have henc_eq : encrypt_des_cbc bc key iv pt = .ok (iv ++ cts.flatten) := by
    unfold encrypt_des_cbc
    rw [if_neg (by omega)]
  refine ⟨iv ++ cts.flatten, henc_eq, ?_⟩
  unfold decrypt_des_cbc
  rw [if_neg (by omega)]
  have hlenct : (iv ++ cts.flatten).length = 8 + 8 * cts.length := by
    simp [List.length_append, hiv, hctlen]
  have hge : ¬((iv ++ cts.flatten).length < 16) := by
    rw [hlenct]
    have : cts.length ≠ 0 := fun hz => hcts_ne (List.eq_nil_of_length_eq_zero hz)
    omega
  rw [if_neg hge]
  rw [List.take_left' hiv, List.drop_left' hiv]
  rw [toBlocks_flatten cts hct8]
  rw [hcts, cbcDec_cbcEnc bc henc hdec key blocks iv hiv h8]
  rw [hblocks, flatten_toBlocks _ (pad8_length_mod pt)]
  exact unpad8_pad8 pt

/-! ### Base64 lemmas -/

theorem b64Sextet_b64CharOf : ∀ i < 64, b64Sextet (b64CharOf i) = .ok i := by decide

theorem b64CharOf_ne_pad : ∀ i < 64, ¬(b64CharOf i = '=') := by decide

theorem b64_roundtrip_chunks (bs : List Nat) (hb : ∀ x ∈ bs, x < 256) :
    b64decodeChunks (b64encodeChunks bs) = .ok bs := by
  have H : ∀ (n : Nat) (bs : List Nat), bs.length ≤ n → (∀ x ∈ bs, x < 256) →
      b64decodeChunks (b64encodeChunks bs) = .ok bs := by
    intro n
    induction n with
    | zero =>
      intro bs hl _
      have : bs = [] := List.eq_nil_of_length_eq_zero (by omega)
      rw [this]
      rfl
    | succ n ih =>
      intro bs hl hb
      match bs with
      | [] => rfl
      | [a] =>
        have ha : a < 256 := hb a (by simp)
        show b64decodeChunks [b64CharOf (a / 4), b64CharOf (a % 4 * 16), '=', '='] = _
        rw [b64decodeChunks]
        rw [if_pos ⟨rfl, rfl, rfl⟩]
        rw [b64Sextet_b64CharOf (a / 4) (by omega), b64Sextet_b64CharOf (a % 4 * 16) (by omega)]
        show Except.ok [a / 4 * 4 + a % 4 * 16 / 16] = Except.ok [a]
        congr 1
        congr 1
        omega
      | [a, b] =>
        have ha : a < 256 := hb a (by simp)
        have hbb : b < 256 := hb b (by simp)
        show b64decodeChunks [b64CharOf (a / 4), b64CharOf (a % 4 * 16 + b / 16),
          b64CharOf (b % 16 * 4), '='] = _
        rw [b64decodeChunks]
        rw [if_neg (fun hcon => b64CharOf_ne_pad (b % 16 * 4) (by omega) hcon.1)]
        rw [if_pos ⟨rfl, rfl⟩]
        rw [b64Sextet_b64CharOf (a / 4) (by omega),
          b64Sextet_b64CharOf (a % 4 * 16 + b / 16) (by omega),
          b64Sextet_b64CharOf (b % 16 * 4) (by omega)]
        show Except.ok [a / 4 * 4 + (a % 4 * 16 + b / 16) / 16,
          (a % 4 * 16 + b / 16) % 16 * 16 + b % 16 * 4 / 4] = Except.ok [a, b]
        congr 1
        have e1 : a / 4 * 4 + (a % 4 * 16 + b / 16) / 16 = a := by omega
        have e2 : (a % 4 * 16 + b / 16) % 16 * 16 + b % 16 * 4 / 4 = b := by omega
        rw [e1, e2]
      | a :: b :: c :: rest =>
        have ha : a < 256 := hb a (by simp)
        have hbb : b < 256 := hb b (by simp)
        have hc : c < 256 := hb c (by simp)
        show b64decodeChunks (b64CharOf (a / 4) :: b64CharOf (a % 4 * 16 + b / 16) ::
          b64CharOf (b % 16 * 4 + c / 64) :: b64CharOf (c % 64) :: b64encodeChunks rest) = _
        rw [b64decodeChunks]
        rw [if_neg (fun hcon => b64CharOf_ne_pad (b % 16 * 4 + c / 64) (by omega) hcon.1)]
        rw [if_neg (fun hcon => b64CharOf_ne_pad (c % 64) (by omega) hcon.1)]
        rw [b64Sextet_b64CharOf (a / 4) (by omega),
          b64Sextet_b64CharOf (a % 4 * 16 + b / 16) (by omega),
          b64Sextet_b64CharOf (b % 16 * 4 + c / 64) (by omega),
          b64Sextet_b64CharOf (c % 64) (by omega)]
        rw [ih rest (by simp at hl; omega) (fun x hx => hb x (by simp [hx]))]
        show Except.ok _ = Except.ok _
        congr 1
        have e1 : a / 4 * 4 + (a % 4 * 16 + b / 16) / 16 = a := by omega
        have e2 : (a % 4 * 16 + b / 16) % 16 * 16 + (b % 16 * 4 + c / 64) / 4 = b := by omega
        have e3 : (b % 16 * 4 + c / 64) % 4 * 64 + c % 64 = c := by omega
        rw [e1, e2, e3]
  exact H bs.length bs le_rfl hb

theorem b64decode_b64encode (bs : List Nat) (hb : ∀ x ∈ bs, x < 256) :
    b64decode (b64encode bs) = .ok bs :=
  b64_roundtrip_chunks bs hb

/-! ### Handler lemmas -/

theorem isBlank_some {s : String} (h : s ≠ "") : isBlank (some s) = false := by
  simp [isBlank, h]

theorem register_core_status (st : ServerState) (req : Request) :
    (_handle_register_core st req).1.status = "success" ∨
      (_handle_register_core st req).1.status = "error" := by
  unfold _handle_register_core
  repeat' split
  all_goals first | exact Or.inl rfl | exact Or.inr rfl

theorem register_fst_eq_core (bc : BlockCipher) (dk : String → List Nat → List Nat)
    (st : ServerState) (req : Request) (iv : List Nat) (now : String) :
    (_handle_register bc dk st req iv now).1 = (_handle_register_core st req).1 := by
  unfold _handle_register
  generalize _handle_register_core st req = pr
  obtain ⟨resp, st1⟩ := pr
  dsimp only
  repeat' split
  all_goals rfl

theorem register_users_eq_core (bc : BlockCipher) (dk : String → List Nat → List Nat)
    (st : ServerState) (req : Request) (iv : List Nat) (now : String) :
    (_handle_register bc dk st req iv now).2.users = (_handle_register_core st req).2.users := by
  unfold _handle_register
  generalize _handle_register_core st req = pr
  obtain ⟨resp, st1⟩ := pr
  dsimp only
  repeat' split
  all_goals rfl

theorem register_mailbox_cases (bc : BlockCipher) (dk : String → List Nat → List Nat)
    (st : ServerState) (req : Request) (iv : List Nat) (now : String) :
    (_handle_register bc dk st req iv now).2.mailbox =
        (_handle_register_core st req).2.mailbox ∨
      ∃ wrow : MailRow,
        (_handle_register bc dk st req iv now).2.mailbox =
            (_handle_register_core st req).2.mailbox ++ [wrow] ∧
          wrow.to_username = req.username.getD "" ∧ wrow.from_username = "server" := by
  unfold _handle_register
  generalize _handle_register_core st req = pr
  obtain ⟨resp, st1⟩ := pr
  dsimp only
  repeat' split
  all_goals first | exact Or.inl rfl | exact Or.inr ⟨_, rfl, rfl, rfl⟩

theorem register_status (bc : BlockCipher) (dk : String → List Nat → List Nat)
    (st : ServerState) (req : Request) (iv : List Nat) (now : String) :
    (_handle_register bc dk st req iv now).1.status = "success" ∨
      (_handle_register bc dk st req iv now).1.status = "error" := by
  rw [register_fst_eq_core]
  exact register_core_status st req

theorem login_status (st : ServerState) (req : Request) :
    (_handle_login st req).status = "success" ∨ (_handle_login st req).status = "error" := by
  unfold _handle_login
  repeat' split
  all_goals first | exact Or.inl rfl | exact Or.inr rfl

theorem send_status (bc : BlockCipher) (dk : String → List Nat → List Nat)
    (st : ServerState) (req : Request) (iv : List Nat) (now : String) :
    (_handle_send bc dk st req iv now).1.status = "success" ∨
      (_handle_send bc dk st req iv now).1.status = "error" := by
  unfold _handle_send
  repeat' split
  all_goals first | exact Or.inl rfl | exact Or.inr rfl

theorem fetch_status (st : ServerState) (req : Request) :
    (_handle_fetch st req).status = "success" ∨ (_handle_fetch st req).status = "error" := by
  unfold _handle_fetch
  repeat' split
  all_goals first | exact Or.inl rfl | exact Or.inr rfl

/-- Characterization of a successful registration core: both required
fields were present, the username was free, the picture decoded all the
way through the steganography decoder, the submitted hash field was
present and base64-decodable, and the only change is the appended user
row, which stores the submitted base64 hash string. -/
theorem register_core_success_spec (st : ServerState) (req : Request)
    (h : (_handle_register_core st req).1.status = "success") :
    isBlank req.username = false ∧ isBlank req.picture = false ∧
    findUser st.users (req.username.getD "") = none ∧
    (∃ pic pbytes img dh, req.picture = some pic ∧ b64decode pic = .ok pbytes ∧
      imgFromBytes pbytes = .ok img ∧ decode_hash_from_image img = .ok dh) ∧
    ∃ ph rh, req.password_hash = some ph ∧ b64decode ph = .ok rh ∧
      _handle_register_core st req =
        ({ status := "success", message := some "Registration successful" },
         { st with users := st.users ++
             [{ username := req.username.getD "", password_hash := ph,
                picture_path := picturePathOf (req.username.getD "") }] }) := by
  unfold _handle_register_core at h ⊢
  by_cases h1 : (isBlank req.username || isBlank req.picture) = true
  · rw [if_pos h1] at h
    simp at h
  · rw [if_neg h1] at h ⊢
    simp only [Bool.or_eq_true, not_or, Bool.not_eq_true] at h1
    obtain ⟨hu, hp⟩ := h1
    cases hfind : findUser st.users (req.username.getD "") with
    | some row => simp only [hfind] at h; simp at h
    | none =>
      simp only [hfind] at h
      cases hdec : b64decode (req.picture.getD "") with
      | error e => simp only [hdec] at h; simp at h
      | ok pbytes =>
        simp only [hdec] at h
        cases himg : imgFromBytes pbytes with
        | error e => simp only [himg] at h; simp at h
        | ok img =>
          simp only [himg] at h
          cases hdh : decode_hash_from_image img with
          | error e => simp only [hdh] at h; simp at h
          | ok dh =>
            simp only [hdh] at h
            cases hph : req.password_hash with
            | none => simp only [hph] at h; simp at h
            | some ph =>
              simp only [hph] at h
              cases hrh : b64decode ph with
              | error e => simp only [hrh] at h; simp at h
              | ok rh =>
                have hpic : req.picture = some (req.picture.getD "") := by
                  cases hpo : req.picture with
                  | none => rw [hpo] at hp; simp [isBlank] at hp
                  | some s => rfl
                refine ⟨hu, hp, rfl, ⟨_, _, _, _, hpic, hdec, himg, hdh⟩,
                  ph, rh, rfl, hrh, ?_⟩
                simp only [himg, hdh, hrh]

theorem insertById_lt (r : MailRow) (l : List MailRow)
    (h : ∀ x ∈ l, r.id < x.id) : insertById r l = r :: l := by
  cases l with
  | nil => rfl
  | cons x xs =>
    unfold insertById
    rw [if_pos (h x (by simp))]

theorem sortById_sorted (l : List MailRow)
    (h : l.Pairwise (fun a b => a.id < b.id)) : sortById l = l := by
  induction l with
  | nil => rfl
  | cons x xs ih =>
    rw [List.pairwise_cons] at h
    unfold sortById
    rw [ih h.2]
    exact insertById_lt x xs h.1

theorem encodeBits_ok : ∀ (bits : List Nat) (px : List Pixel) (w s : Nat),
    s + bits.length ≤ 3 * px.length →
    ∃ px', encodeBits px w s bits = .ok px' ∧ px'.length = px.length := by
  intro bits
  induction bits with
  | nil => intro px w s _; exact ⟨px, rfl, rfl⟩
  | cons bit rest ih =>
    intro px w s hr
    simp only [List.length_cons] at hr
    have hidx : s / 3 < px.length := by omega
    have hget : px[s / 3]? = some (px.get ⟨s / 3, hidx⟩) := by
      rw [List.getElem?_eq_getElem hidx]; rfl
    obtain ⟨px', hok, hlen⟩ := ih
      (px.set (s / 3)
        (setChannel (px.get ⟨s / 3, hidx⟩) (s % 3)
          ((getChannel (px.get ⟨s / 3, hidx⟩) (s % 3) &&& 0xFE) ||| bit)))
      w (s + 1) (by rw [List.length_set]; omega)
    refine ⟨px', ?_, by rw [hlen, List.length_set]⟩
    unfold encodeBits writeSlot
    rw [slotIndex_eq, hget]
    exact hok

theorem idBC_valid : idBC.Valid :=
  ⟨fun _ _ h => h, fun _ _ _ => rfl, fun _ _ h => h⟩

/-! ## Claim theorems -/

/-- C6: for every request — including ones with missing, malformed or
malicious fields — the request router (and with it every action handler)
returns a structured response whose `status` field is `success` or
`error`; all exception paths are caught inside the handlers and never
escape. -/
theorem C6_router_total_status (bc : BlockCipher) (dk : String → List Nat → List Nat)
    (st : ServerState) (req : Request) (iv : List Nat) (now : String) :
    (_handle_request bc dk st req iv now).1.status = "success" ∨
      (_handle_request bc dk st req iv now).1.status = "error" := by
  unfold _handle_request
  repeat' split
  · exact register_status bc dk st req iv now
  · exact login_status st req
  · exact send_status bc dk st req iv now
  · exact fetch_status st req
  · exact Or.inl rfl
  · exact Or.inr rfl

/-- C7: `encode_hash_in_image` on an image whose capacity
`width*height*3` is below 272 bits always fails with the
insufficient-capacity error; as soon as the capacity meets the 272-bit
check (the smallest realizable capacity is 273 bits — capacities are
multiples of 3 and 272 is not — so this covers the boundary), a 32-byte
payload encodes successfully. -/
theorem C7_capacity_boundary :
    (∀ (img : Img) (h : List Nat), img.width * img.height * 3 < 272 →
      encode_hash_in_image img h =
        .error "Image too small. Need at least 90 pixels for encoding.") ∧
    (∀ (img : Img) (h : List Nat), 272 ≤ img.width * img.height * 3 →
      img.pixels.length = img.width * img.height → h.length = 32 →
      ∃ img', encode_hash_in_image img h = .ok img') := by
  constructor
  · intro img h hc
    unfold encode_hash_in_image
    rw [if_pos]
    simp only [validate_image_size, decide_eq_false_iff_not]
    omega
  · intro img h hc hlen h32
    obtain ⟨px1, hok1, hlen1⟩ := encodeBits_ok (natBits16 (8 * h.length)) img.pixels
      img.width 0 (by rw [natBits16_length]; omega)
    obtain ⟨px2, hok2, _⟩ := encodeBits_ok ((h.map byteBits).flatten) px1 img.width 16
      (by rw [hashBinary_length, h32, hlen1, hlen]; omega)
    refine ⟨⟨img.width, img.height, px2⟩, ?_⟩
    unfold encode_hash_in_image
    have hval : validate_image_size img 272 = true := by
      simp only [validate_image_size, decide_eq_true_eq]
      omega
    simp only [hval, Bool.true_eq_false, if_false, hok1, hok2]

/-- Witness for C7: a 90-pixel image (capacity 270) is rejected and a
91-pixel image (capacity 273, the minimum passing the check) succeeds. -/
theorem C7_capacity_boundary_witness :
    encode_hash_in_image img90 (List.range 32) =
      .error "Image too small. Need at least 90 pixels for encoding." ∧
    ∃ img', encode_hash_in_image img91 (List.range 32) = .ok img' :=
  ⟨C7_capacity_boundary.1 img90 (List.range 32) (by decide),
   C7_capacity_boundary.2 img91 (List.range 32) (by decide) (by decide) (by decide)⟩

/-- C4: for every RGB image with at least 91 pixels (byte-valued
channels, pixel list matching its dimensions) and every 32-byte payload,
decoding the encoded image returns exactly the payload; each bit slot `i`
< 272 (pixel `i/3`, channel `i%3` in R,G,B order over the raster) holds
in its LSB the corresponding bit of the 16-bit length prefix followed by
the payload bits, and all non-LSB bits of every channel byte are
preserved. -/
theorem C4_steg_roundtrip (img : Img) (h : List Nat)
    (hpx : img.pixels.length = img.width * img.height)
    (hcap : 91 ≤ img.width * img.height)
    (hch : channelsBounded img.pixels)
    (hlen : h.length = 32)
    (hb : ∀ b ∈ h, b < 256) :
    ∃ img', encode_hash_in_image img h = .ok img' ∧
      decode_hash_from_image img' = .ok h ∧
      img'.width = img.width ∧ img'.height = img.height ∧
      img'.pixels.length = img.pixels.length ∧
      (∀ i, i < 272 → readSlot img'.pixels img'.width i =
        .ok ((natBits16 256 ++ (h.map byteBits).flatten).getD i 0)) ∧
      (∀ n c, n < img.pixels.length → c < 3 →
        chanAt img'.pixels n c / 2 = chanAt img.pixels n c / 2) :=
  steg_roundtrip img h hpx hcap hch hlen hb

/-- Witness for C4 at a 91-pixel image with channels (10, 200, 7) and the
payload 0, 1, ..., 31. -/
theorem C4_steg_roundtrip_witness :
    ∃ img', encode_hash_in_image img91g (List.range 32) = .ok img' ∧
      decode_hash_from_image img' = .ok (List.range 32) ∧
      img'.width = img91g.width ∧ img'.height = img91g.height ∧
      img'.pixels.length = img91g.pixels.length ∧
      (∀ i, i < 272 → readSlot img'.pixels img'.width i =
        .ok ((natBits16 256 ++ ((List.range 32).map byteBits).flatten).getD i 0)) ∧
      (∀ n c, n < img91g.pixels.length → c < 3 →
        chanAt img'.pixels n c / 2 = chanAt img91g.pixels n c / 2) :=
  C4_steg_roundtrip img91g (List.range 32) (by decide) (by decide)
    (by unfold channelsBounded; decide) (by decide) (by decide)

/-- C3: for every valid block primitive (real DES is one), every 8-byte
key, every fresh 8-byte IV and every plaintext (as its UTF-8 byte
sequence), decrypting the encryption returns exactly the plaintext, where
`encrypt_des_cbc` returns the IV concatenated with the DES-CBC ciphertext
of the PKCS#7-padded bytes and `decrypt_des_cbc` splits off the first 8
bytes as the IV, decrypts and unpads. -/
theorem C3_encrypt_decrypt_roundtrip (bc : BlockCipher) (hv : bc.Valid)
    (key iv pt : List Nat) (hk : key.length = 8) (hiv : iv.length = 8) :
    ∃ ct, encrypt_des_cbc bc key iv pt = .ok ct ∧
      decrypt_des_cbc bc key ct = .ok pt :=
  des_cbc_roundtrip bc hv key iv pt hk hiv

/-- Witness for C3 with the identity block cipher, key 0..7, IV of ones
and the bytes of "hi". -/
theorem C3_encrypt_decrypt_roundtrip_witness :
    ∃ ct, encrypt_des_cbc idBC (List.range 8) (List.replicate 8 1) [104, 105] = .ok ct ∧
      decrypt_des_cbc idBC (List.range 8) ct = .ok [104, 105] :=
  C3_encrypt_decrypt_roundtrip idBC idBC_valid (List.range 8) (List.replicate 8 1)
    [104, 105] (by decide) (by decide)

/-- C5 counterexample: with the stored 32-byte hash H equal to 32 zero
bytes (a state the registration handler accepts, since it stores whatever
base64 value the client submits), the two 8-byte windows H[0:8] and
H[8:16] coincide, so submitting H[8:16] as the prefix field succeeds —
the claim says it must fail for every registered user. -/
theorem C5_counterexample :
    b64decode (b64encode hashA) = .ok hashA ∧
    hashA.length = 32 ∧
    b64decode (b64encode (List.replicate 8 0)) = .ok ((hashA.drop 8).take 8) ∧
    _handle_login stC5 reqC5 =
      { status := "success", message := some "Login successful" } := by
  decide

/-- C5 (amended): for a registered user with stored 32-byte hash H, LOGIN
succeeds iff the submitted prefix field decodes to exactly H[0:8]; in
particular submitting the full 32-byte H fails (length mismatch), and
submitting H[8:16] fails whenever H[8:16] differs from H[0:8] (when the
two windows coincide, as for a constant hash, it succeeds). -/
theorem C5_login_iff (st : ServerState) (u p : String) (row : UserRow) (H : List Nat)
    (hu : u ≠ "") (hfind : findUser st.users u = some row)
    (hH : b64decode row.password_hash = .ok H) (hlen : H.length = 32) :
    ((_handle_login st { username := some u, password_hash_first8 := some p }).status =
        "success" ↔ b64decode p = .ok (H.take 8)) ∧
    (b64decode p = .ok H →
      (_handle_login st { username := some u, password_hash_first8 := some p }).status =
        "error") ∧
    ((H.drop 8).take 8 ≠ H.take 8 → b64decode p = .ok ((H.drop 8).take 8) →
      (_handle_login st { username := some u, password_hash_first8 := some p }).status =
        "error") := by
  have key : ((_handle_login st { username := some u, password_hash_first8 := some p }).status =
      "success" ↔ b64decode p = .ok (H.take 8)) := by
    unfold _handle_login
    by_cases hp : p = ""
    · subst hp
      rw [if_pos (by simp [isBlank])]
      constructor
      · intro hcon; simp at hcon
      · intro hcon
        have hnil : b64decode "" = .ok ([] : List Nat) := rfl
        rw [hnil] at hcon
        have heq : ([] : List Nat) = H.take 8 := by
          injection hcon
        have := congrArg List.length heq
        rw [List.length_take, hlen] at this
        simp at this
    · rw [if_neg (by simp [isBlank, hu, hp])]
      simp only [Option.getD_some, hfind, hH]
      cases hdp : b64decode p with
      | error e =>
        constructor
        · intro hcon; simp at hcon
        · intro hcon; simp at hcon
      | ok received =>
        dsimp only
        by_cases hne : get_password_hash_first8 H ≠ received
        · rw [if_pos hne]
          constructor
          · intro hcon; simp at hcon
          · intro hcon
            injection hcon with hcon
            exact absurd hcon.symm hne
        · rw [if_neg hne]
          simp only [not_not] at hne
          constructor
          · intro _; rw [← hne]; rfl
          · intro _; rfl
  refine ⟨key, ?_, ?_⟩
  · intro hdp
    rcases login_status st { username := some u, password_hash_first8 := some p }
        with hs | hs
    · exfalso
      have := key.mp hs
      rw [hdp] at this
      injection this with this
      have hlen8 := congrArg List.length this
      rw [List.length_take, hlen] at hlen8
      omega
    · exact hs
  · intro hwin hdp
    rcases login_status st { username := some u, password_hash_first8 := some p }
        with hs | hs
    · exfalso
      have := key.mp hs
      rw [hdp] at this
      injection this with this
      exact hwin this
    · exact hs

/-- Witness for C5 (amended) at a stored hash 0..31, whose two windows
differ. -/
theorem C5_login_iff_witness :
    ((_handle_login stC5W reqC5W).status = "success" ↔
      b64decode (b64encode ((List.range 32).take 8)) = .ok ((List.range 32).take 8)) ∧
    (b64decode (b64encode ((List.range 32).take 8)) = .ok (List.range 32) →
      (_handle_login stC5W reqC5W).status = "error") ∧
    (((List.range 32).drop 8).take 8 ≠ (List.range 32).take 8 →
      b64decode (b64encode ((List.range 32).take 8)) =
          .ok (((List.range 32).drop 8).take 8) →
      (_handle_login stC5W reqC5W).status = "error") :=
  C5_login_iff stC5W "carol" (b64encode ((List.range 32).take 8))
    { username := "carol", password_hash := b64encode (List.range 32),
      picture_path := "images/carol.png" }
    (List.range 32) (by decide) (by decide) (by decide) (by decide)

/-- C8: for a registered user, FETCH succeeds and returns exactly the
mailbox rows addressed to that user in ascending order of the surrogate
id (insertion order, as the ids in the state are strictly increasing),
oldest first, each body the base64 encoding of exactly the stored
ciphertext blob. -/
theorem C8_fetch_order (st : ServerState) (u : String) (row : UserRow)
    (hu : u ≠ "") (hfind : findUser st.users u = some row)
    (hsorted : st.mailbox.Pairwise (fun a b => a.id < b.id)) :
    _handle_fetch st { username := some u } =
      { status := "success",
        messages := some ((st.mailbox.filter (fun r => r.to_username == u)).map
          (fun r => { fromUser := r.from_username, body := b64encode r.body,
                      created_at := r.created_at })) } := by
  unfold _handle_fetch
  rw [if_neg (by simp [isBlank, hu])]
  simp only [Option.getD_some, hfind]
  rw [sortById_sorted _ (hsorted.filter _)]

/-- Witness for C8: two of three rows are addressed to bob and come back
oldest first with base64 bodies. -/
theorem C8_fetch_order_witness :
    _handle_fetch stC8W { username := some "bob" } =
      { status := "success",
        messages := some ((stC8W.mailbox.filter (fun r => r.to_username == "bob")).map
          (fun r => { fromUser := r.from_username, body := b64encode r.body,
                      created_at := r.created_at })) } :=
  C8_fetch_order stC8W "bob"
    { username := "bob", password_hash := b64encode hashA,
      picture_path := "images/bob.png" }
    (by decide) (by decide) (by decide)

/-- C1 counterexample: a REGISTER request whose picture embeds the
all-zero hash `hashA` but whose `password_hash` field carries the
different value `hashB` succeeds, and the persisted user row stores the
submitted base64 string (decoding to `hashB`), not the image-embedded
`hashA` — the disabled equality check is never applied. -/
theorem C1_counterexample :
    (_handle_register idBC dkPad st0 cexReq (List.replicate 8 0) "t0").1.status =
      "success" ∧
    (_handle_register idBC dkPad st0 cexReq (List.replicate 8 0) "t0").2.users =
      [{ username := "alice", password_hash := b64encode hashB,
         picture_path := "images/alice.png" }] ∧
    b64decode (b64encode hashB) = .ok hashB ∧
    decode_hash_from_image cexImg = .ok hashA ∧
    b64decode (b64encode (imgToBytes cexImg)) = .ok (imgToBytes cexImg) ∧
    imgFromBytes (imgToBytes cexImg) = .ok cexImg ∧
    hashB ≠ hashA := by
  decide

/-- C1 (amended): for every REGISTER that returns success, the persisted
row stores the client-submitted base64 `password_hash` field verbatim;
the image-embedded hash must decode successfully (base64, image parse and
steganography decode all succeed) but is neither persisted nor compared
against the submitted field. -/
theorem C1_stored_hash_is_submitted (bc : BlockCipher)
    (dk : String → List Nat → List Nat) (st : ServerState) (req : Request)
    (iv : List Nat) (now : String)
    (h : (_handle_register bc dk st req iv now).1.status = "success") :
    ∃ ph, req.password_hash = some ph ∧
      (∃ pic pbytes img dh, req.picture = some pic ∧ b64decode pic = .ok pbytes ∧
        imgFromBytes pbytes = .ok img ∧ decode_hash_from_image img = .ok dh) ∧
      (_handle_register bc dk st req iv now).2.users =
        st.users ++ [{ username := req.username.getD "", password_hash := ph,
                       picture_path := picturePathOf (req.username.getD "") }] := by
  rw [register_fst_eq_core] at h
  obtain ⟨_, _, _, hpicdec, ph, rh, hph, hrh, hcore⟩ := register_core_success_spec st req h
  exact ⟨ph, hph, hpicdec, by rw [register_users_eq_core, hcore]⟩

/-- Witness for C1 (amended) at the concrete successful registration. -/
theorem C1_stored_hash_is_submitted_witness :
    ∃ ph, cexReq.password_hash = some ph ∧
      (∃ pic pbytes img dh, cexReq.picture = some pic ∧ b64decode pic = .ok pbytes ∧
        imgFromBytes pbytes = .ok img ∧ decode_hash_from_image img = .ok dh) ∧
      (_handle_register idBC dkPad st0 cexReq (List.replicate 8 0) "t0").2.users =
        st0.users ++ [{ username := cexReq.username.getD "", password_hash := ph,
                        picture_path := picturePathOf (cexReq.username.getD "") }] :=
  C1_stored_hash_is_submitted idBC dkPad st0 cexReq (List.replicate 8 0) "t0"
    (by decide)

/-- C2: for two registered users a (stored hash Ha) and b (stored hash
Hb) and any plaintext, if a submits SEND with a body that decodes to a
ciphertext encrypted under deriveKey(a, Ha), the handler returns
status success and appends exactly one envelope for b, whose stored body
decrypts under deriveKey(b, Hb) to exactly the original plaintext.  The
abstract `dk` is the external PBKDF2 derivation; `iv1` is the fresh IV of
the re-encryption and `now` the UTC timestamp. -/
theorem C2_send_relay (bc : BlockCipher) (hv : bc.Valid)
    (dk : String → List Nat → List Nat) (st : ServerState)
    (a b : String) (ra rb : UserRow) (Ha Hb pt iv0 iv1 ct : List Nat)
    (body_s now : String)
    (ha : a ≠ "") (hb : b ≠ "")
    (hfa : findUser st.users a = some ra) (hHa : b64decode ra.password_hash = .ok Ha)
    (hfb : findUser st.users b = some rb) (hHb : b64decode rb.password_hash = .ok Hb)
    (hka : (dk a Ha).length = 8) (hkb : (dk b Hb).length = 8)
    (hiv0 : iv0.length = 8) (hiv1 : iv1.length = 8)
    (henc : encrypt_des_cbc bc (dk a Ha) iv0 pt = .ok ct)
    (hbody : b64decode body_s = .ok ct) :
    ∃ ct2,
      _handle_send bc dk st { fromUser := some a, toUser := some b, body := some body_s }
          iv1 now =
        ({ status := "success", message := some "Message stored" },
         { st with mailbox := st.mailbox ++ [MailRow.mk st.next_id b a ct2 now],
                   next_id := st.next_id + 1 }) ∧
      decrypt_des_cbc bc (dk b Hb) ct2 = .ok pt := by
  obtain ⟨ct', henc', hdec'⟩ := des_cbc_roundtrip bc hv (dk a Ha) iv0 pt hka hiv0
  rw [henc] at henc'
  injection henc' with hcteq
  obtain ⟨ct2, henc2, hdec2⟩ := des_cbc_roundtrip bc hv (dk b Hb) iv1 pt hkb hiv1
  have hdecct : decrypt_des_cbc bc (dk a Ha) ct = .ok pt := by
    rw [hcteq]; exact hdec'
  have hga : get_user_des_key dk st a = some (dk a Ha) := by
    unfold get_user_des_key
    simp only [hfa, hHa]
  have hgb : get_user_des_key dk st b = some (dk b Hb) := by
    unfold get_user_des_key
    simp only [hfb, hHb]
  have hnea : (dk a Ha).isEmpty = false := by
    cases hdk : dk a Ha with
    | nil => rw [hdk] at hka; simp at hka
    | cons x xs => rfl
  have hneb : (dk b Hb).isEmpty = false := by
    cases hdk : dk b Hb with
    | nil => rw [hdk] at hkb; simp at hkb
    | cons x xs => rfl
  refine ⟨ct2, ?_, hdec2⟩
  unfold _handle_send
  rw [if_neg (by simp [isBlank, ha, hb])]
  simp only [Option.getD_some, hga, hgb, hnea, hneb, hbody, hdecct, henc2]
  rfl

/-- The C2 witness: alice's derived key under the concrete stand-ins. -/
theorem C2_send_relay_witness :
    ∃ ct2,
      _handle_send idBC dkPad stC2W reqC2W (List.replicate 8 4) "t1" =
        ({ status := "success", message := some "Message stored" },
         { stC2W with mailbox := stC2W.mailbox ++ [MailRow.mk stC2W.next_id "bob" "alice" ct2 "t1"], next_id := stC2W.next_id + 1 }) ∧
      decrypt_des_cbc idBC (dkPad "bob" (List.replicate 32 9)) ct2 = .ok [104, 105] :=
  C2_send_relay idBC idBC_valid dkPad stC2W "alice" "bob"
    { username := "alice", password_hash := b64encode (List.replicate 32 5),
      picture_path := "images/alice.png" }
    { username := "bob", password_hash := b64encode (List.replicate 32 9),
      picture_path := "images/bob.png" }
    (List.replicate 32 5) (List.replicate 32 9) [104, 105]
    (List.replicate 8 3) (List.replicate 8 4) ctC2W
    (b64encode ctC2W) "t1"
    (by decide) (by decide) (by decide) (by decide) (by decide) (by decide)
    (by decide) (by decide) (by decide) (by decide) (by decide) (by decide)

/-- If the registration core did not succeed, the welcome block never
runs and the handler returns the core result unchanged. -/
theorem register_eq_core_of_error (bc : BlockCipher) (dk : String → List Nat → List Nat)
    (st : ServerState) (req : Request) (iv : List Nat) (now : String)
    (h : ¬(_handle_register_core st req).1.status = "success") :
    _handle_register bc dk st req iv now = _handle_register_core st req := by
  unfold _handle_register
  dsimp only
  rw [if_neg h]

/-- C9 counterexample: after alice is registered, a second REGISTER for
"alice" that omits the picture field returns the error "Missing required
fields", not a message indicating the username already exists — the claim
demands the already-exists message for every subsequent REGISTER naming
that username. -/
theorem C9_counterexample :
    (_handle_register idBC dkPad
        ((_handle_register idBC dkPad st0 cexReq (List.replicate 8 0) "t0").2)
        cexReq2 (List.replicate 8 0) "t1").1.status = "error" ∧
    (_handle_register idBC dkPad
        ((_handle_register idBC dkPad st0 cexReq (List.replicate 8 0) "t0").2)
        cexReq2 (List.replicate 8 0) "t1").1.message = some "Missing required fields" ∧
    (_handle_register idBC dkPad
        ((_handle_register idBC dkPad st0 cexReq (List.replicate 8 0) "t0").2)
        cexReq2 (List.replicate 8 0) "t1").1.message ≠ some "Username already exists" ∧
    findUser ((_handle_register idBC dkPad st0 cexReq (List.replicate 8 0) "t0").2).users
      "alice" ≠ none := by
  decide

/-- C9 (amended): after a successful REGISTER for a username, every
subsequent REGISTER naming the same username returns status error and
leaves the entire state (identity included) unchanged; whenever the
second request also carries a picture, the error message is exactly
"Username already exists" (a second request missing the picture errors
earlier with "Missing required fields"). -/
theorem C9_duplicate_register (bc : BlockCipher) (dk : String → List Nat → List Nat)
    (st : ServerState) (req1 req2 : Request) (iv1 iv2 : List Nat) (now1 now2 : String)
    (h1 : (_handle_register bc dk st req1 iv1 now1).1.status = "success")
    (hsame : req2.username = req1.username) :
    ((_handle_register bc dk ((_handle_register bc dk st req1 iv1 now1).2) req2
          iv2 now2).1.status = "error" ∧
      (_handle_register bc dk ((_handle_register bc dk st req1 iv1 now1).2) req2
          iv2 now2).2 = (_handle_register bc dk st req1 iv1 now1).2) ∧
    (isBlank req2.picture = false →
      _handle_register bc dk ((_handle_register bc dk st req1 iv1 now1).2) req2 iv2 now2 =
        ({ status := "error", message := some "Username already exists" },
         (_handle_register bc dk st req1 iv1 now1).2)) := by
  set st1 := (_handle_register bc dk st req1 iv1 now1).2 with hst1
  rw [register_fst_eq_core] at h1
  obtain ⟨hu1, hp1, hfree, _, ph, rh, hph, hrh, hcore⟩ :=
    register_core_success_spec st req1 h1
  have husers : st1.users = st.users ++
      [UserRow.mk (req1.username.getD "") ph (picturePathOf (req1.username.getD ""))] := by
    rw [hst1, register_users_eq_core, hcore]
  have hfind2 : findUser st1.users (req2.username.getD "") =
      some (UserRow.mk (req1.username.getD "") ph (picturePathOf (req1.username.getD ""))) := by
    rw [husers, hsame]
    unfold findUser at hfree ⊢
    rw [List.find?_append, hfree]
    simp
  have hcore2err : isBlank req2.picture = false →
      _handle_register_core st1 req2 =
        ({ status := "error", message := some "Username already exists" }, st1) := by
    intro hpic
    unfold _handle_register_core
    rw [if_neg (by rw [hsame]; simp [hu1, hpic])]
    simp only [hfind2]
  constructor
  · by_cases hpic : isBlank req2.picture = false
    · have hc := hcore2err hpic
      have hreg := register_eq_core_of_error bc dk st1 req2 iv2 now2 (by rw [hc]; simp)
      rw [hreg, hc]
      exact ⟨rfl, rfl⟩
    · have hcond : (isBlank req2.username || isBlank req2.picture) = true := by
        simp only [Bool.not_eq_false] at hpic
        simp [hpic]
      have hc : _handle_register_core st1 req2 =
          ({ status := "error", message := some "Missing required fields" }, st1) := by
        unfold _handle_register_core
        rw [if_pos hcond]
      have hreg := register_eq_core_of_error bc dk st1 req2 iv2 now2 (by rw [hc]; simp)
      rw [hreg, hc]
      exact ⟨rfl, rfl⟩
  · intro hpic
    have hc := hcore2err hpic
    have hreg := register_eq_core_of_error bc dk st1 req2 iv2 now2 (by rw [hc]; simp)
    rw [hreg, hc]

/-- Witness for C9 (amended): replaying the exact same registration
request is rejected with the already-exists message and no state change. -/
theorem C9_duplicate_register_witness :
    ((_handle_register idBC dkPad ((_handle_register idBC dkPad st0 cexReq
          (List.replicate 8 0) "t0").2) cexReq
          (List.replicate 8 0) "t1").1.status = "error" ∧
      (_handle_register idBC dkPad ((_handle_register idBC dkPad st0 cexReq
          (List.replicate 8 0) "t0").2) cexReq
          (List.replicate 8 0) "t1").2 =
        (_handle_register idBC dkPad st0 cexReq (List.replicate 8 0) "t0").2) ∧
    (isBlank cexReq.picture = false →
      _handle_register idBC dkPad ((_handle_register idBC dkPad st0 cexReq
          (List.replicate 8 0) "t0").2) cexReq (List.replicate 8 0) "t1" =
        ({ status := "error", message := some "Username already exists" },
         (_handle_register idBC dkPad st0 cexReq (List.replicate 8 0) "t0").2)) :=
  C9_duplicate_register idBC dkPad st0 cexReq cexReq (List.replicate 8 0)
    (List.replicate 8 0) "t0" "t1" (by decide) rfl

/-- C10: the response and the users table of `_handle_register` are
exactly those of the pre-welcome core — the welcome envelope is
best-effort: on success the identity row is persisted regardless of
whether key derivation or the welcome insert goes through, and the
welcome step can only append one system envelope to the mailbox. -/
theorem C10_welcome_best_effort (bc : BlockCipher) (dk : String → List Nat → List Nat)
    (st : ServerState) (req : Request) (iv : List Nat) (now : String) :
    (_handle_register bc dk st req iv now).1 = (_handle_register_core st req).1 ∧
    (_handle_register bc dk st req iv now).2.users =
      (_handle_register_core st req).2.users ∧
    ((_handle_register bc dk st req iv now).1.status = "success" →
      ∃ ph, (_handle_register bc dk st req iv now).2.users = st.users ++
        [UserRow.mk (req.username.getD "") ph (picturePathOf (req.username.getD ""))]) ∧
    ((_handle_register bc dk st req iv now).2.mailbox =
        (_handle_register_core st req).2.mailbox ∨
      ∃ wrow, (_handle_register bc dk st req iv now).2.mailbox =
          (_handle_register_core st req).2.mailbox ++ [wrow] ∧
        wrow.to_username = req.username.getD "" ∧ wrow.from_username = "server") := by
  refine ⟨register_fst_eq_core bc dk st req iv now,
    register_users_eq_core bc dk st req iv now, ?_,
    register_mailbox_cases bc dk st req iv now⟩
  intro hs
  rw [register_fst_eq_core] at hs
  obtain ⟨_, _, _, _, ph, rh, hph, hrh, hcore⟩ := register_core_success_spec st req hs
  exact ⟨ph, by rw [register_users_eq_core, hcore]⟩

/-- Witness for C10 with a key derivation that always fails Python's
truthiness test: registration still succeeds, the identity is persisted,
and the mailbox stays empty because the welcome step was skipped. -/
theorem C10_welcome_best_effort_witness :
    ((_handle_register idBC dkEmpty st0 cexReq (List.replicate 8 0) "t0").1 =
        (_handle_register_core st0 cexReq).1 ∧
      (_handle_register idBC dkEmpty st0 cexReq (List.replicate 8 0) "t0").2.users =
        (_handle_register_core st0 cexReq).2.users ∧
      ((_handle_register idBC dkEmpty st0 cexReq (List.replicate 8 0) "t0").1.status =
          "success" →
        ∃ ph, (_handle_register idBC dkEmpty st0 cexReq
            (List.replicate 8 0) "t0").2.users = st0.users ++
          [UserRow.mk (cexReq.username.getD "") ph
            (picturePathOf (cexReq.username.getD ""))]) ∧
      ((_handle_register idBC dkEmpty st0 cexReq (List.replicate 8 0) "t0").2.mailbox =
          (_handle_register_core st0 cexReq).2.mailbox ∨
        ∃ wrow, (_handle_register idBC dkEmpty st0 cexReq
            (List.replicate 8 0) "t0").2.mailbox =
            (_handle_register_core st0 cexReq).2.mailbox ++ [wrow] ∧
          wrow.to_username = cexReq.username.getD "" ∧
          wrow.from_username = "server")) ∧
    (_handle_register idBC dkEmpty st0 cexReq (List.replicate 8 0) "t0").1.status =
      "success" ∧
    (_handle_register idBC dkEmpty st0 cexReq (List.replicate 8 0) "t0").2.mailbox = [] :=
  ⟨C10_welcome_best_effort idBC dkEmpty st0 cexReq (List.replicate 8 0) "t0",
   by decide, by decide⟩

